import Mathlib

/-!
Shallow embedding of the trip lifecycle / geospatial ingestion and analytics
core of the repository (Express + Prisma + PostgreSQL).

Sources embedded here:
  * the trip controller (startTrip, ingestLocation, stopTrip),
  * tripAnalyticsController.ts (haversine, getTripDetail, updateTripDetails,
    batchIngestLocations, logTripEvent),
  * the streak / leaderboard controller (getUserStreak, getWeeklyLeaderboard).

Modelling conventions:
  * Timestamps are integers (epoch milliseconds); `new Date()` inside a single
    request handler is one clock value `now` passed to the operation.
  * JS number fields that the code guards with `typeof x === 'number'` become
    `Option ℚ`; latitude/longitude values are exact rationals, cast to `ℝ`
    where the code does real arithmetic (`Math.sin`, ...).  Floating-point
    arithmetic is idealized as real arithmetic.
  * JS truthiness is modelled explicitly: a numeric timestamp `0` and an empty
    string are falsy (`jsTimestampOrNow`, `jsStrOrNull`, `jsModeOrUnknown`).
  * The database is a record of lists (row insertion order preserved);
    `prisma...findFirst` is `List.find?`, `updateMany`/`update` are maps,
    `createMany` with `skipDuplicates` honours the unique composite
    `(tripId, clientId)` documented in the repository README
    ("Unique composite: (tripId, clientId)").
  * Row surrogate ids and `createdAt` of trip points are storage-internal and
    carry no information used by any handler, so `TripPoint` rows are
    identified by their content, as in the spec's data model.
  * `encryptToBase64` (node crypto) is an external collaborator; the
    operations that call it take an opaque `enc : String → String` parameter.
  * `CustomError('Trip not found', 404)` is `ApiError.notFound`,
    `CustomError('Trip already ended', 400)` is `ApiError.invalidState`;
    a Prisma unique-constraint throw surfaces as `ApiError.internal`.
-/

namespace TripCore

/-- Milliseconds per calendar day (used by the streak/leaderboard SQL windows). -/
def dayMs : Int := 86400000

/-- `timestamp ? new Date(timestamp) : new Date()`: JS truthiness, so a
supplied timestamp `0` is treated like a missing one. -/
def jsTimestampOrNow (ts : Option Int) (now : Int) : Int :=
  match ts with
  | some t => if t = 0 then now else t
  | none => now

/-- `s || null` on an optional string: the empty string collapses to null. -/
def jsStrOrNull (s : Option String) : Option String :=
  match s with
  | some v => if v = "" then none else some v
  | none => none

/-- `m || 'unknown'` applied to the stored mode tag of a point. -/
def jsModeOrUnknown (m : Option String) : String :=
  match m with
  | some v => if v = "" then "unknown" else v
  | none => "unknown"

/-- A row of the `trips` table (fields as selected/written by the handlers). -/
structure Trip where
  id : Nat
  userId : Nat
  deviceId : Option String := none
  startedAt : Int
  endedAt : Option Int := none
  startLat : Option ℚ := none
  startLng : Option ℚ := none
  endLat : Option ℚ := none
  endLng : Option ℚ := none
  modes : List String := []
  companions : Option String := none
  destLat : Option ℚ := none
  destLng : Option ℚ := none
  destAddressEncrypted : Option String := none
  distanceMeters : Option Int := none
  durationSeconds : Option Int := none
deriving Repr, DecidableEq

/-- A row of the `trip_points` table, identified by content (the surrogate id
and `createdAt` are storage-internal defaults the handlers never read). -/
structure TripPoint where
  tripId : Nat
  timestamp : Int
  lat : ℚ
  lng : ℚ
  speed : Option ℚ := none
  accuracy : Option ℚ := none
  heading : Option ℚ := none
  mode : Option String := none
  clientId : Option String := none
deriving Repr, DecidableEq

/-- A row of the `trip_events` table. -/
structure TripEvent where
  tripId : Nat
  type : String
  data : Option String := none
deriving Repr, DecidableEq

/-- A row of the `users` table (fields read by the leaderboard query). -/
structure User where
  id : Nat
  email : String := ""
  username : String := ""
deriving Repr, DecidableEq

/-- The persistent store: `trips`, `trip_points`, `trip_events`, `users`, and
`companion_contacts` (each contact row reduced to its `user_id`).
`nextTripId` models the id generator backing `prisma.trip.create`. -/
structure DB where
  trips : List Trip := []
  points : List TripPoint := []
  events : List TripEvent := []
  users : List User := []
  companionContacts : List Nat := []
  nextTripId : Nat := 1
deriving Repr, DecidableEq

/-- Error taxonomy of the handlers.  `unauthorized` and `validation` arise in
middleware layers before the embedded code runs; `internal` is a storage-layer
throw (e.g. a unique-constraint violation) surfaced as a generic 500. -/
inductive ApiError where
  | unauthorized
  | notFound
  | invalidState
  | validation
  | internal
deriving Repr, DecidableEq

/-- Request body of POST /trips/start-trip. -/
structure StartTripReq where
  timestamp : Option Int := none
  lat : Option ℚ := none
  lng : Option ℚ := none
  deviceId : Option String := none
  modes : Option (List String) := none
  companions : Option String := none
  destLat : Option ℚ := none
  destLng : Option ℚ := none
  destAddress : Option String := none
deriving Repr, DecidableEq

/-- `prisma.trip.updateMany({where: {userId, endedAt: null}, data: {endedAt: now}})`. -/
def closeOpenTripsOf (owner : Nat) (now : Int) (trips : List Trip) : List Trip :=
  trips.map fun t =>
    if t.userId = owner ∧ t.endedAt = none then { t with endedAt := some now } else t

/-- `startTrip` (trip controller): closes every open trip of the caller, then
creates a new open trip with `startedAt = timestamp ? timestamp : now`. -/
def startTrip (enc : String → String) (owner : Nat) (req : StartTripReq)
    (now : Int) (db : DB) : Trip × DB :=
  let startedAt := jsTimestampOrNow req.timestamp now
  let closed := closeOpenTripsOf owner now db.trips
  let trip : Trip :=
    { id := db.nextTripId
      userId := owner
      deviceId := jsStrOrNull req.deviceId
      startedAt := startedAt
      endedAt := none
      startLat := req.lat
      startLng := req.lng
      modes := req.modes.getD []
      companions := req.companions
      destLat := req.destLat
      destLng := req.destLng
      destAddressEncrypted := (jsStrOrNull req.destAddress).map enc }
  (trip, { db with trips := closed ++ [trip], nextTripId := db.nextTripId + 1 })

/-- `prisma.trip.findFirst({where: {id: tripId, userId: user.id}})`. -/
def findTrip (db : DB) (tripId owner : Nat) : Option Trip :=
  db.trips.find? fun t => t.id == tripId && t.userId == owner

/-- `stopTrip` (trip controller): 404 when missing/not owned, 400 when already
ended, otherwise sets `endedAt = timestamp ? timestamp : now` and the end
coordinates on the found row. -/
def stopTrip (owner tripId : Nat) (timestamp : Option Int) (lat lng : Option ℚ)
    (now : Int) (db : DB) : Except ApiError (Trip × DB) :=
  match findTrip db tripId owner with
  | none => .error .notFound
  | some t =>
    if t.endedAt.isSome then .error .invalidState
    else
      let endedAt := jsTimestampOrNow timestamp now
      let upd : Trip → Trip := fun u =>
        if u.id = t.id then { u with endedAt := some endedAt, endLat := lat, endLng := lng }
        else u
      .ok (upd t, { db with trips := db.trips.map upd })

/-- Request body of PATCH /trips/:tripId. -/
structure UpdateTripReq where
  modes : Option (List String) := none
  companions : Option String := none
  destLat : Option ℚ := none
  destLng : Option ℚ := none
  destAddress : Option String := none
deriving Repr, DecidableEq

/-- `updateTripDetails` (tripAnalyticsController): 404 when missing/not owned,
400 when already ended, else merges the partial fields into the found row. -/
def updateTripDetails (enc : String → String) (owner tripId : Nat)
    (req : UpdateTripReq) (db : DB) : Except ApiError (Trip × DB) :=
  match findTrip db tripId owner with
  | none => .error .notFound
  | some t =>
    if t.endedAt.isSome then .error .invalidState
    else
      let upd : Trip → Trip := fun u =>
        if u.id = t.id then
          { u with
            modes := req.modes.getD u.modes
            companions := match req.companions with
              | some c => some c
              | none => u.companions
            destLat := match req.destLat with
              | some v => some v
              | none => u.destLat
            destLng := match req.destLng with
              | some v => some v
              | none => u.destLng
            destAddressEncrypted := match jsStrOrNull req.destAddress with
              | some s => some (enc s)
              | none => u.destAddressEncrypted }
        else u
      .ok (upd t, { db with trips := db.trips.map upd })

/-- One point of an ingestion payload (single or batch). -/
structure PointReq where
  clientId : Option String := none
  timestamp : Option Int := none
  lat : ℚ
  lng : ℚ
  mode : Option String := none
  speed : Option ℚ := none
  accuracy : Option ℚ := none
  heading : Option ℚ := none
deriving Repr, DecidableEq

/-- The `trip_points` row built from a payload point (shared by `ingestLocation`
and the `.map` inside `batchIngestLocations`). -/
def mkPointRow (tid : Nat) (now : Int) (p : PointReq) : TripPoint :=
  { tripId := tid
    timestamp := jsTimestampOrNow p.timestamp now
    lat := p.lat
    lng := p.lng
    speed := p.speed
    accuracy := p.accuracy
    heading := p.heading
    mode := jsStrOrNull p.mode
    clientId := jsStrOrNull p.clientId }

/-- Does inserting `r` violate the unique composite `(tripId, clientId)`
against the rows in `table`?  (Rows with a null `clientId` never conflict.) -/
def hasKeyConflict (table : List TripPoint) (r : TripPoint) : Bool :=
  r.clientId.isSome && table.any fun p => p.tripId == r.tripId && p.clientId == r.clientId

/-- `ingestLocation` (trip controller): requires the trip to exist, be owned and
be open, then `prisma.tripPoint.create` — which throws (500) if the row
violates the `(tripId, clientId)` unique composite. -/
def ingestLocation (owner tripId : Nat) (p : PointReq) (now : Int) (db : DB) :
    Except ApiError DB :=
  match findTrip db tripId owner with
  | none => .error .notFound
  | some t =>
    if t.endedAt.isSome then .error .invalidState
    else
      let row := mkPointRow t.id now p
      if hasKeyConflict db.points row then .error .internal
      else .ok { db with points := db.points ++ [row] }

/-- `prisma.tripPoint.createMany({data, skipDuplicates: true})`: rows are
inserted left to right, silently skipping any row that would violate the
`(tripId, clientId)` unique composite against the rows already present. -/
def insertManySkipDup (table : List TripPoint) : List TripPoint → List TripPoint
  | [] => table
  | r :: rs =>
    if hasKeyConflict table r then insertManySkipDup table rs
    else insertManySkipDup (table ++ [r]) rs

/-- The raw `DELETE FROM trip_points ... USING (VALUES ...)` issued by
`batchIngestLocations`: removes every stored row of trip `tid` whose
`clientId` appears in `keys`. -/
def deleteKeyedRows (tid : Nat) (keys : List String) (table : List TripPoint) :
    List TripPoint :=
  table.filter fun p => !(p.tripId == tid && keys.any fun c => p.clientId == some c)

/-- `const data = (points || []).slice(0, 1000).map(...)`: the rows built
from the (truncated) batch payload. -/
def batchData (tid : Nat) (now : Int) (pts : List PointReq) : List TripPoint :=
  (pts.take 1000).map (mkPointRow tid now)

/-- The `(tripId, clientId)` keys of the payload rows that carry one
(`data.filter((d) => d.clientId)`). -/
def batchKeys (tid : Nat) (now : Int) (pts : List PointReq) : List String :=
  (batchData tid now pts).filterMap fun r => r.clientId

/-- The `trip_points` table after a successful batch ingestion: delete the
stored rows matching the payload keys, then `createMany` the payload. -/
def batchInserted (tid : Nat) (now : Int) (pts : List PointReq)
    (table : List TripPoint) : List TripPoint :=
  insertManySkipDup (deleteKeyedRows tid (batchKeys tid now pts) table)
    (batchData tid now pts)

/-- The store written by a successful batch ingestion. -/
def batchWrite (tid : Nat) (now : Int) (pts : List PointReq) (db : DB) : DB :=
  { db with points := batchInserted tid now pts db.points }

/-- `batchIngestLocations` (tripAnalyticsController): requires an owned open
trip; truncates the payload to 1000 points; deletes stored rows matching the
payload's `(tripId, clientId)` pairs; re-inserts the whole payload with
`skipDuplicates`; responds `inserted = data.length` (the payload size, not the
number of rows written). -/
def batchIngestLocations (owner tripId : Nat) (pts : List PointReq) (now : Int)
    (db : DB) : Except ApiError (Nat × DB) :=
  match findTrip db tripId owner with
  | none => .error .notFound
  | some t =>
    if t.endedAt.isSome then .error .invalidState
    else .ok ((batchData t.id now pts).length, batchWrite t.id now pts db)

/-- `logTripEvent` (tripAnalyticsController): requires an owned trip (open or
closed) and appends the event. -/
def logTripEvent (owner tripId : Nat) (type : String) (data : Option String)
    (db : DB) : Except ApiError (TripEvent × DB) :=
  match findTrip db tripId owner with
  | none => .error .notFound
  | some t =>
    let e : TripEvent := { tripId := t.id, type := type, data := data }
    .ok (e, { db with events := db.events ++ [e] })

/-- One API call, for reasoning about call sequences. -/
inductive Op where
  | start (owner : Nat) (req : StartTripReq) (now : Int)
  | update (owner tripId : Nat) (req : UpdateTripReq)
  | stop (owner tripId : Nat) (timestamp : Option Int) (lat lng : Option ℚ) (now : Int)
  | ingestOne (owner tripId : Nat) (p : PointReq) (now : Int)
  | ingestBatch (owner tripId : Nat) (pts : List PointReq) (now : Int)
  | appendEvent (owner tripId : Nat) (type : String) (data : Option String)

/-- The store a call result leaves behind: the written store on success, the
unchanged store on failure. -/
def keepDB {α : Type} (db : DB) (proj : α → DB) (e : Except ApiError α) : DB :=
  match e with
  | .ok x => proj x
  | .error _ => db

/-- The store after one call (a failed call leaves the store unchanged). -/
def stepDB (enc : String → String) (db : DB) : Op → DB
  | .start owner req now => (startTrip enc owner req now db).2
  | .update owner tripId req =>
    keepDB db (fun x => x.2) (updateTripDetails enc owner tripId req db)
  | .stop owner tripId ts la ln now =>
    keepDB db (fun x => x.2) (stopTrip owner tripId ts la ln now db)
  | .ingestOne owner tripId p now =>
    keepDB db (fun x => x) (ingestLocation owner tripId p now db)
  | .ingestBatch owner tripId pts now =>
    keepDB db (fun x => x.2) (batchIngestLocations owner tripId pts now db)
  | .appendEvent owner tripId ty da =>
    keepDB db (fun x => x.2) (logTripEvent owner tripId ty da db)

/-- Is `t` an open trip of `owner` (`endedAt = null`)? -/
def isOpenFor (owner : Nat) (t : Trip) : Bool :=
  t.userId == owner && t.endedAt.isNone

/-- The open trips of `owner`. -/
def openTripsOf (db : DB) (owner : Nat) : List Trip :=
  db.trips.filter (isOpenFor owner)

/-- The spec invariant: at most one open trip per owner. -/
def AtMostOneOpen (db : DB) (owner : Nat) : Prop :=
  (openTripsOf db owner).length ≤ 1

/-- Store well-formedness: row ids are distinct and below the id generator. -/
def DB.WF (db : DB) : Prop :=
  (db.trips.map Trip.id).Nodup ∧ ∀ t ∈ db.trips, t.id < db.nextTripId

/-! ### Distance analytics (`haversine`, `getTripDetail`) -/

/-- `(d * Math.PI) / 180`. -/
noncomputable def toRad (d : ℝ) : ℝ := d * Real.pi / 180

/-- `Math.atan2(y, x)`: the argument of the complex number `x + y*i`,
in `(-π, π]` (with `atan2 0 0 = 0`), exactly as in JS. -/
noncomputable def atan2 (y x : ℝ) : ℝ := Complex.arg ⟨x, y⟩

/-- `a = sin²(dLat/2) + cos(lat1)·cos(lat2)·sin²(dLon/2)` of the haversine
helper in tripAnalyticsController.ts. -/
noncomputable def haverA (lat1 lon1 lat2 lon2 : ℝ) : ℝ :=
  Real.sin (toRad (lat2 - lat1) / 2) ^ 2 +
    Real.cos (toRad lat1) * Real.cos (toRad lat2) *
      Real.sin (toRad (lon2 - lon1) / 2) ^ 2

/-- The `haversine` helper of tripAnalyticsController.ts (Earth radius
6,371,000 m; `c = 2·atan2(√a, √(1-a))`), as real arithmetic. -/
noncomputable def haversine (lat1 lon1 lat2 lon2 : ℝ) : ℝ :=
  6371000 * (2 * atan2 (Real.sqrt (haverA lat1 lon1 lat2 lon2))
    (Real.sqrt (1 - haverA lat1 lon1 lat2 lon2)))

/-- `ORDER BY timestamp ASC` comparison on points. -/
def ptLe (p q : TripPoint) : Prop := p.timestamp ≤ q.timestamp

instance : DecidableRel ptLe := fun p q => inferInstanceAs (Decidable (p.timestamp ≤ q.timestamp))

instance : IsTotal TripPoint ptLe := ⟨fun p q => le_total p.timestamp q.timestamp⟩

instance : IsTrans TripPoint ptLe := ⟨fun _ _ _ h h2 => le_trans h h2⟩

/-- `prisma.tripPoint.findMany({where: {tripId}, orderBy: {timestamp: 'asc'}})`. -/
def sortedPointsOf (db : DB) (tid : Nat) : List TripPoint :=
  List.insertionSort ptLe (db.points.filter fun p => p.tripId == tid)

/-- The consecutive pairs walked by the `for (let i = 1; ...)` loop. -/
def segmentsOf (l : List TripPoint) : List (TripPoint × TripPoint) :=
  l.zip l.tail

/-- `pointsWithMode[i].mode || 'unknown'`: the bucket a segment's distance is
added to — the mode tag of the segment's later point. -/
def segTag (s : TripPoint × TripPoint) : String := jsModeOrUnknown s.2.mode

/-- The haversine length of one segment (coordinates cast from the stored
rationals to ℝ). -/
noncomputable def segDist (s : TripPoint × TripPoint) : ℝ :=
  haversine (s.1.lat : ℝ) (s.1.lng : ℝ) (s.2.lat : ℝ) (s.2.lng : ℝ)

/-- The running `distance` accumulator of the loop. -/
noncomputable def distAcc (segs : List (TripPoint × TripPoint)) : ℝ :=
  segs.foldl (fun acc s => acc + segDist s) 0

/-- One `byMode[m] = (byMode[m] || 0) + d` assignment: update the bucket map
at the segment's tag. -/
noncomputable def byModeUpd (f : String → ℝ) (s : TripPoint × TripPoint) :
    String → ℝ :=
  fun m => if segTag s = m then f m + segDist s else f m

/-- The running `byMode` object of the loop, as a total function (absent keys
read as 0, mirroring `byMode[m] || 0`). -/
noncomputable def byModeAcc (segs : List (TripPoint × TripPoint)) : String → ℝ :=
  segs.foldl byModeUpd fun _ => 0

/-- The keys of a JS object built by repeated `obj[k] = ...` assignment, in
first-insertion order. -/
def objKeys (tags : List String) : List String :=
  tags.foldl (fun ks k => if k ∈ ks then ks else ks ++ [k]) []

/-- The key list of the `byMode` object (`Object.entries` order). -/
def modeKeysOf (segs : List (TripPoint × TripPoint)) : List String :=
  objKeys (segs.map segTag)

/-- The analytics part of the GET /trips/:tripId response.  `distanceByMode`
is the rounded bucket map (defined on all strings; only `modeKeys` are
serialized, absent keys read 0). -/
structure TripDetailResp where
  distanceMeters : ℤ
  durationSeconds : Option ℤ
  averageSpeedMps : Option ℝ
  distanceByMode : String → ℤ
  modeKeys : List String

instance : Inhabited TripDetailResp :=
  ⟨{ distanceMeters := 0, durationSeconds := none, averageSpeedMps := none,
     distanceByMode := fun _ => 0, modeKeys := [] }⟩

/-- `durationSeconds`: `Math.max(0, Math.floor((endedAt - startedAt)/1000))`
for a closed trip, null for an open one. -/
def durationSecondsOf (t : Trip) : Option ℤ :=
  match t.endedAt with
  | some e => some (max 0 ((e - t.startedAt) / 1000))
  | none => none

/-- The analytics record getTripDetail builds for a found trip: sort the
trip's points by timestamp, sum haversine segment distances, bucket them by
the later point's mode tag, round the totals (`Math.round`). -/
noncomputable def tripDetailResp (db : DB) (t : Trip) : TripDetailResp :=
  { distanceMeters := round (distAcc (segmentsOf (sortedPointsOf db t.id)))
    durationSeconds := durationSecondsOf t
    averageSpeedMps :=
      match durationSecondsOf t with
      | some d =>
        if 0 < d then some (distAcc (segmentsOf (sortedPointsOf db t.id)) / (d : ℝ))
        else none
      | none => none
    distanceByMode := fun m => round (byModeAcc (segmentsOf (sortedPointsOf db t.id)) m)
    modeKeys := modeKeysOf (segmentsOf (sortedPointsOf db t.id)) }

/-- `getTripDetail` (tripAnalyticsController): 404 when missing/not owned,
else the analytics record of the found trip. -/
noncomputable def getTripDetail (owner tripId : Nat) (db : DB) :
    Except ApiError TripDetailResp :=
  match findTrip db tripId owner with
  | none => .error .notFound
  | some t => .ok (tripDetailResp db t)

/-- The claim's reading of the total: the sum, over consecutive pairs of the
trip's points sorted ascending by timestamp, of the haversine distance. -/
noncomputable def specDistanceSum (db : DB) (tid : Nat) : ℝ :=
  ((segmentsOf (sortedPointsOf db tid)).map segDist).sum

/-- The claim's reading of one bucket: the summed distance of the segments
whose later point carries tag `m` (`"unknown"` when untagged). -/
noncomputable def specModeSum (db : DB) (tid : Nat) (m : String) : ℝ :=
  (((segmentsOf (sortedPointsOf db tid)).filter fun s => segTag s = m).map segDist).sum

/-- The sum of the serialized values of the `distanceByMode` object. -/
def mapValuesSum (resp : TripDetailResp) : ℤ :=
  (resp.modeKeys.map resp.distanceByMode).sum

/-- Extract the payload of a successful call (examples only use this on calls
they separately prove successful). -/
def respOf (e : Except ApiError TripDetailResp) : TripDetailResp :=
  match e with
  | .ok r => r
  | .error _ => default

/-! ### Streak (`getUserStreak`) -/

/-- The UTC calendar day of an epoch-millisecond instant
(`date_trunc('day', ...)` / `toISOString().slice(0,10)` with a UTC server
clock), as a day index. -/
def dayOf (t : Int) : Int := t / dayMs

/-- The day set built by the streak SQL: distinct start days of the owner's
trips with `started_at >= NOW() - INTERVAL '60 days'`. -/
def activeDaySet (db : DB) (owner : Nat) (now : Int) : Finset Int :=
  ((db.trips.filter fun t =>
      decide (t.userId = owner ∧ now - 60 * dayMs ≤ t.startedAt)).map
    fun t => dayOf t.startedAt).toFinset

/-- The `for (;;)` walk of getUserStreak, fuelled: it counts consecutive
present days walking backwards from `d` and stops at the first missing day.
The JS loop needs no fuel because the finite day set forces an exit; the
callers below pass fuel exceeding the set's size, which is never exhausted. -/
def streakLoop (days : Finset Int) : Nat → Int → Nat
  | 0, _ => 0
  | fuel + 1, d => if d ∈ days then streakLoop days fuel (d - 1) + 1 else 0

/-- `getUserStreak`: `(currentStreakDays, activeDaysLast60)`. -/
def getUserStreak (owner : Nat) (now : Int) (db : DB) : Nat × Nat :=
  let days := activeDaySet db owner now
  (streakLoop days (days.card + 1) (dayOf now), days.card)

/-! ### Weekly leaderboard (`getWeeklyLeaderboard`) -/

/-- One row of the leaderboard response. -/
structure LBRow where
  userId : Nat
  distance : Int
  companions : Int
  email : String
  username : String
deriving Repr, DecidableEq

/-- `ORDER BY distance DESC, companions DESC`. -/
def lbGe (a b : LBRow) : Prop :=
  b.distance < a.distance ∨ (a.distance = b.distance ∧ b.companions ≤ a.companions)

instance : DecidableRel lbGe := fun a b =>
  inferInstanceAs (Decidable (b.distance < a.distance
    ∨ (a.distance = b.distance ∧ b.companions ≤ a.companions)))

instance : IsTotal LBRow lbGe :=
  ⟨by intro a b; unfold lbGe; omega⟩

instance : IsTrans LBRow lbGe :=
  ⟨by intro a b c; unfold lbGe; omega⟩

/-- The `d` CTE: `COALESCE(SUM(t.distance_meters), 0)` over the user's trips
with `started_at >= NOW() - INTERVAL '7 days'` (a NULL `distance_meters`
contributes nothing to SUM, i.e. 0). -/
def weeklyDistance (db : DB) (now : Int) (uid : Nat) : Int :=
  ((db.trips.filter fun t =>
      decide (t.userId = uid ∧ now - 7 * dayMs ≤ t.startedAt)).map
    fun t => t.distanceMeters.getD 0).sum

/-- The `c` CTE: `COUNT(*)` of the user's `companion_contacts` rows. -/
def companionCount (db : DB) (uid : Nat) : Int :=
  ((db.companionContacts.filter fun c => c == uid).length : Int)

/-- The row the leaderboard SELECT produces for one `users` row. -/
def mkLBRow (db : DB) (now : Int) (u : User) : LBRow :=
  { userId := u.id
    distance := weeklyDistance db now u.id
    companions := companionCount db u.id
    email := u.email
    username := u.username }

/-- `getWeeklyLeaderboard`: one row per `users` row (LEFT JOIN, so users
without in-window trips appear with distance 0), sorted by
`distance DESC, companions DESC`, truncated by `LIMIT 100`. -/
def getWeeklyLeaderboard (now : Int) (db : DB) : List LBRow :=
  (List.insertionSort lbGe (db.users.map (mkLBRow db now))).take 100

/-- The leaderboard row of user 1 in the `dbBoard` example. -/
def rowBoard : LBRow :=
  { userId := 1, distance := 5000, companions := 0, email := "a", username := "a" }

/-- The leaderboard row of the lone trip-less user in `dbLoneUser`. -/
def rowLone : LBRow :=
  { userId := 4, distance := 0, companions := 0, email := "u", username := "u" }

/-- The claim's per-trip reading: a trip started within the trailing 7 days
contributes exactly its stored distance, an older trip contributes 0. -/
def weeklyContribution (now : Int) (t : Trip) : Int :=
  if now - 7 * dayMs ≤ t.startedAt then t.distanceMeters.getD 0 else 0

/-- Was the call successful? -/
def okB {α : Type} : Except ApiError α → Bool
  | .ok _ => true
  | .error _ => false

/-! ### Concrete stores and payloads used by the example theorems -/

/-- A concrete stand-in for the external `encryptToBase64`. -/
def encId : String → String := fun s => s

/-- An open trip (id 1) of user 7. -/
def tripOpen7 : Trip := { id := 1, userId := 7, startedAt := 0 }

/-- A store holding one open trip (id 1) of user 7. -/
def dbOpen7 : DB := { trips := [tripOpen7], nextTripId := 2 }

/-- A one-point batch payload carrying an idempotency key and a timestamp. -/
def ptsKeyed : List PointReq :=
  [{ clientId := some "a", timestamp := some 5, lat := 1, lng := 2 }]

/-- The store after `batchIngestLocations 7 1 ptsKeyed 100 dbOpen7`. -/
def dbOpen7Ingested : DB :=
  { trips := [tripOpen7]
    points := [{ tripId := 1, timestamp := 5, lat := 1, lng := 2, clientId := some "a" }]
    nextTripId := 2 }

/-- A start-trip request whose supplied timestamp is the (falsy) number 0. -/
def reqTsZero : StartTripReq := { timestamp := some 0 }

/-- The origin point of the two equator examples. -/
def pQ0 : TripPoint := { tripId := 1, timestamp := 0, lat := 0, lng := 0 }

/-- A point 90° east of the origin on the equator, tagged "walk". -/
def pQ1 : TripPoint := { tripId := 1, timestamp := 1, lat := 0, lng := 90, mode := some "walk" }

/-- Two points of trip 1: the origin and a point 90° east on the equator. -/
def dbQuarter : DB := { trips := [tripOpen7], points := [pQ0, pQ1], nextTripId := 2 }

/-- An equator point 27/5000000 of a degree east of the origin (≈ 0.6004 m),
tagged "walk". -/
def pT1 : TripPoint :=
  { tripId := 1, timestamp := 1, lat := 0, lng := 27/5000000, mode := some "walk" }

/-- An equator point another 27/5000000 of a degree east, tagged "bike". -/
def pT2 : TripPoint :=
  { tripId := 1, timestamp := 2, lat := 0, lng := 27/2500000, mode := some "bike" }

/-- Three equator points of trip 1 stepping 27/5000000 of a degree east each
time (segment length ≈ 0.6004 m), the second tagged "walk", the third
"bike". -/
def dbTiny : DB := { trips := [tripOpen7], points := [pQ0, pT1, pT2], nextTripId := 2 }

/-- Leaderboard store: user 1 has an in-window 5000 m trip and an old 7777 m
trip, user 2 has an in-window trip with no cached distance. -/
def dbBoard : DB :=
  { trips :=
      [{ id := 1, userId := 1, startedAt := 998 * dayMs, distanceMeters := some 5000 },
       { id := 2, userId := 1, startedAt := 990 * dayMs, distanceMeters := some 7777 },
       { id := 3, userId := 2, startedAt := 994 * dayMs }]
    users := [{ id := 1, email := "a", username := "a" }, { id := 2, email := "b", username := "b" }]
    nextTripId := 4 }

/-- A store with one registered user and no trips at all. -/
def dbLoneUser : DB :=
  { users := [{ id := 4, email := "u", username := "u" }] }

/-- Streak store: user 3 started trips today, yesterday and two days ago
(days 64, 63, 62), none on day 61, plus one trip outside the 60-day window. -/
def dbStreak : DB :=
  { trips :=
      [{ id := 1, userId := 3, startedAt := 64 * dayMs + 1 },
       { id := 2, userId := 3, startedAt := 63 * dayMs + 2 },
       { id := 3, userId := 3, startedAt := 62 * dayMs + 3 },
       { id := 4, userId := 3, startedAt := 1 * dayMs }]
    nextTripId := 5 }

/-- The clock used with `dbStreak` (during day 64). -/
def nowStreak : Int := 64 * dayMs + 17

/-- Error-handling store: user 5 owns closed trip 1 and open trip 2. -/
def dbClosedOpen : DB :=
  { trips :=
      [{ id := 1, userId := 5, startedAt := 0, endedAt := some 10 },
       { id := 2, userId := 5, startedAt := 20 }]
    nextTripId := 3 }

/-- A keyless, timestamp-less single-point payload. -/
def ptPlain : PointReq := { lat := 3, lng := 4 }

instance (db : DB) (owner : Nat) : Decidable (AtMostOneOpen db owner) :=
  inferInstanceAs (Decidable (_ ≤ _))

instance (db : DB) : Decidable (DB.WF db) :=
  inferInstanceAs (Decidable (_ ∧ _))

end TripCore

namespace TripCore

/-! ### Generic list lemmas -/

/-- Mapping `f` over a list cannot increase the number of `p`-rows when every
`p`-image is a fixed point of `f`. -/
theorem length_filter_map_le {α : Type} (f : α → α) (p : α → Bool)
    (h : ∀ x, p (f x) = true → f x = x) (l : List α) :
    ((l.map f).filter p).length ≤ (l.filter p).length := by
  induction l with
  | nil => simp
  | cons x xs ih =>
    cases hpf : p (f x) with
    | true =>
      have hfx : f x = x := h x hpf
      have hpx : p x = true := by rw [← hfx]; exact hpf
      simpa [List.filter_cons, hpf, hpx, hfx] using ih
    | false =>
      cases hpx : p x
      · simpa [List.filter_cons, hpf, hpx] using ih
      · simp only [List.map_cons, List.filter_cons, hpf, hpx]
        simp only [Bool.false_eq_true, if_false, if_true, List.length_cons]
        exact le_trans ih (Nat.le_succ _)

/-- Mapping `f` preserves the number of `p`-rows when `f` preserves `p`. -/
theorem length_filter_map_eq {α : Type} (f : α → α) (p : α → Bool)
    (h : ∀ x, p (f x) = p x) (l : List α) :
    ((l.map f).filter p).length = (l.filter p).length := by
  induction l with
  | nil => rfl
  | cons x xs ih =>
    cases hpx : p x
    · simp [List.filter_cons, h x, hpx, ih]
    · simp [List.filter_cons, h x, hpx, ih]

/-! ### C1: at most one open trip per owner -/

/-- Shape of the store after `startTrip`. -/
theorem startTrip_trips (enc : String → String) (owner : Nat) (req : StartTripReq)
    (now : Int) (db : DB) :
    (startTrip enc owner req now db).2.trips
      = closeOpenTripsOf owner now db.trips ++ [(startTrip enc owner req now db).1] := rfl

/-- The trip returned by `startTrip` belongs to the caller and is open. -/
theorem startTrip_fst (enc : String → String) (owner : Nat) (req : StartTripReq)
    (now : Int) (db : DB) :
    (startTrip enc owner req now db).1.userId = owner
      ∧ (startTrip enc owner req now db).1.endedAt = none
      ∧ (startTrip enc owner req now db).1.id = db.nextTripId := ⟨rfl, rfl, rfl⟩

/-- After the `updateMany` guard, no trip of the caller is open. -/
theorem isOpenFor_closeOne (owner : Nat) (now : Int) (t : Trip) :
    isOpenFor owner
      (if t.userId = owner ∧ t.endedAt = none then { t with endedAt := some now } else t)
      = false := by
  by_cases hc : t.userId = owner ∧ t.endedAt = none
  · simp [hc, isOpenFor]
  · rw [if_neg hc]
    rcases not_and_or.mp hc with h1 | h2
    · simp [isOpenFor, h1]
    · cases hend : t.endedAt with
      | none => exact absurd hend h2
      | some e => simp [isOpenFor, hend]

/-- The caller has no open trip in the closed list. -/
theorem filter_closeOpenTripsOf_self (owner : Nat) (now : Int) (trips : List Trip) :
    (closeOpenTripsOf owner now trips).filter (isOpenFor owner) = [] := by
  rw [List.filter_eq_nil_iff]
  intro t ht
  rcases List.mem_map.mp ht with ⟨u, _, rfl⟩
  simp [isOpenFor_closeOne]

/-- The `updateMany` guard does not change other owners' open-trip counts. -/
theorem length_filter_closeOpenTripsOf_other (owner w : Nat) (hw : w ≠ owner)
    (now : Int) (trips : List Trip) :
    ((closeOpenTripsOf owner now trips).filter (isOpenFor w)).length
      = (trips.filter (isOpenFor w)).length := by
  unfold closeOpenTripsOf
  apply length_filter_map_eq
  intro t
  by_cases hc : t.userId = owner ∧ t.endedAt = none
  · have huw : (t.userId == w) = false := by
      rw [hc.1]
      exact beq_eq_false_iff_ne.mpr fun hh => hw hh.symm
    rw [if_pos hc]
    simp [isOpenFor, huw]
  · simp [hc]

theorem stepDB_start (enc : String → String) (db : DB) (owner : Nat)
    (req : StartTripReq) (now : Int) :
    stepDB enc db (Op.start owner req now) = (startTrip enc owner req now db).2 := rfl

theorem stepDB_update (enc : String → String) (db : DB) (owner tripId : Nat)
    (req : UpdateTripReq) :
    stepDB enc db (Op.update owner tripId req)
      = keepDB db (fun x => x.2) (updateTripDetails enc owner tripId req db) := rfl

theorem stepDB_stop (enc : String → String) (db : DB) (owner tripId : Nat)
    (ts : Option Int) (la ln : Option ℚ) (now : Int) :
    stepDB enc db (Op.stop owner tripId ts la ln now)
      = keepDB db (fun x => x.2) (stopTrip owner tripId ts la ln now db) := rfl

theorem stepDB_ingestOne (enc : String → String) (db : DB) (owner tripId : Nat)
    (p : PointReq) (now : Int) :
    stepDB enc db (Op.ingestOne owner tripId p now)
      = keepDB db (fun x => x) (ingestLocation owner tripId p now db) := rfl

theorem stepDB_ingestBatch (enc : String → String) (db : DB) (owner tripId : Nat)
    (pts : List PointReq) (now : Int) :
    stepDB enc db (Op.ingestBatch owner tripId pts now)
      = keepDB db (fun x => x.2) (batchIngestLocations owner tripId pts now db) := rfl

theorem stepDB_appendEvent (enc : String → String) (db : DB) (owner tripId : Nat)
    (ty : String) (da : Option String) :
    stepDB enc db (Op.appendEvent owner tripId ty da)
      = keepDB db (fun x => x.2) (logTripEvent owner tripId ty da db) := rfl

/-- A successful `updateTripDetails` only remaps the found trip's partial
fields: the stored trip list is a map that fixes ids, owners and `endedAt`. -/
theorem updateTripDetails_ok_trips (enc : String → String) (owner tripId : Nat)
    (req : UpdateTripReq) (db : DB) (val : Trip × DB)
    (hres : updateTripDetails enc owner tripId req db = .ok val) :
    ∃ f : Trip → Trip, val.2.trips = db.trips.map f
      ∧ ∀ u, (f u).userId = u.userId ∧ (f u).endedAt = u.endedAt := by
  unfold updateTripDetails at hres
  split at hres
  · exact absurd hres (by simp)
  next t hfind =>
    split at hres
    · exact absurd hres (by simp)
    · simp only [Except.ok.injEq] at hres
      refine ⟨_, (congrArg (fun x => x.2.trips) hres).symm, ?_⟩
      intro u
      by_cases hid : u.id = t.id
      · simp [hid]
      · simp [hid]

/-- A successful `stopTrip` only maps trips, and any trip it leaves
satisfying a predicate that rejects ended trips was left unchanged. -/
theorem stopTrip_ok_trips (owner tripId : Nat) (ts : Option Int)
    (la ln : Option ℚ) (now : Int) (db : DB) (val : Trip × DB)
    (hres : stopTrip owner tripId ts la ln now db = .ok val) :
    ∃ f : Trip → Trip, val.2.trips = db.trips.map f
      ∧ ∀ u, (f u).endedAt.isNone = true → f u = u := by
  unfold stopTrip at hres
  split at hres
  · exact absurd hres (by simp)
  next t hfind =>
    split at hres
    · exact absurd hres (by simp)
    · simp only [Except.ok.injEq] at hres
      refine ⟨_, (congrArg (fun x => x.2.trips) hres).symm, ?_⟩
      intro u hu
      by_cases hid : u.id = t.id
      · rw [if_pos hid] at hu; simp at hu
      · rw [if_neg hid]

/-- A successful point or event write does not touch the `trips` table. -/
theorem writes_keep_trips (owner tripId : Nat) (db : DB) :
    (∀ p now db2, ingestLocation owner tripId p now db = .ok db2 → db2.trips = db.trips)
    ∧ (∀ pts now val, batchIngestLocations owner tripId pts now db = .ok val →
        val.2.trips = db.trips)
    ∧ (∀ ty da val, logTripEvent owner tripId ty da db = .ok val →
        val.2.trips = db.trips) := by
  refine ⟨?_, ?_, ?_⟩
  · intro p now db2 hres
    unfold ingestLocation at hres
    split at hres
    · exact absurd hres (by simp)
    · split at hres
      · exact absurd hres (by simp)
      · simp only [] at hres
        split at hres
        · exact absurd hres (by simp)
        · simp only [Except.ok.injEq] at hres
          exact (congrArg DB.trips hres).symm
  · intro pts now val hres
    unfold batchIngestLocations at hres
    split at hres
    · exact absurd hres (by simp)
    · split at hres
      · exact absurd hres (by simp)
      · simp only [Except.ok.injEq] at hres
        exact (congrArg (fun x => x.2.trips) hres).symm
  · intro ty da val hres
    unfold logTripEvent at hres
    split at hres
    · exact absurd hres (by simp)
    · simp only [Except.ok.injEq] at hres
      exact (congrArg (fun x => x.2.trips) hres).symm

/-- One call preserves the at-most-one-open-trip invariant for every owner. -/
theorem step_atMostOneOpen (enc : String → String) (w : Nat) (db : DB) (op : Op)
    (h : AtMostOneOpen db w) : AtMostOneOpen (stepDB enc db op) w := by
  cases op with
  | start owner req now =>
    rw [stepDB_start]
    unfold AtMostOneOpen openTripsOf
    rw [startTrip_trips, List.filter_append, List.length_append]
    by_cases hww : w = owner
    · subst hww
      rw [filter_closeOpenTripsOf_self]
      cases hpa : isOpenFor w (startTrip enc w req now db).1 <;>
        simp [List.filter_cons, hpa]
    · rw [length_filter_closeOpenTripsOf_other owner w hww]
      have huw : (owner == w) = false :=
        beq_eq_false_iff_ne.mpr fun hh => hww hh.symm
      have hnew : isOpenFor w (startTrip enc owner req now db).1 = false := by
        unfold isOpenFor
        rw [(startTrip_fst enc owner req now db).1, huw, Bool.false_and]
      simp only [List.filter_cons, hnew, Bool.false_eq_true, if_false,
        List.filter_nil, List.length_nil]
      simpa using h
  | update owner tripId req =>
    rw [stepDB_update]
    cases hres : updateTripDetails enc owner tripId req db with
    | error e => exact h
    | ok val =>
      show AtMostOneOpen val.2 w
      obtain ⟨f, hmap, hf⟩ := updateTripDetails_ok_trips enc owner tripId req db val hres
      unfold AtMostOneOpen openTripsOf
      rw [hmap]
      refine le_trans (le_of_eq (length_filter_map_eq _ _ ?_ _)) h
      intro u
      unfold isOpenFor
      rw [(hf u).1, (hf u).2]
  | stop owner tripId ts la ln now =>
    rw [stepDB_stop]
    cases hres : stopTrip owner tripId ts la ln now db with
    | error e => exact h
    | ok val =>
      show AtMostOneOpen val.2 w
      obtain ⟨f, hmap, hf⟩ := stopTrip_ok_trips owner tripId ts la ln now db val hres
      unfold AtMostOneOpen openTripsOf
      rw [hmap]
      refine le_trans (length_filter_map_le _ _ ?_ _) h
      intro u hu
      unfold isOpenFor at hu
      exact hf u (Bool.and_elim_right hu)
  | ingestOne owner tripId p now =>
    rw [stepDB_ingestOne]
    cases hres : ingestLocation owner tripId p now db with
    | error e => exact h
    | ok db2 =>
      show AtMostOneOpen db2 w
      have htr := (writes_keep_trips owner tripId db).1 p now db2 hres
      unfold AtMostOneOpen openTripsOf
      rw [htr]; exact h
  | ingestBatch owner tripId pts now =>
    rw [stepDB_ingestBatch]
    cases hres : batchIngestLocations owner tripId pts now db with
    | error e => exact h
    | ok val =>
      show AtMostOneOpen val.2 w
      have htr := (writes_keep_trips owner tripId db).2.1 pts now val hres
      unfold AtMostOneOpen openTripsOf
      rw [htr]; exact h
  | appendEvent owner tripId ty da =>
    rw [stepDB_appendEvent]
    cases hres : logTripEvent owner tripId ty da db with
    | error e => exact h
    | ok val =>
      show AtMostOneOpen val.2 w
      have htr := (writes_keep_trips owner tripId db).2.2 ty da val hres
      unfold AtMostOneOpen openTripsOf
      rw [htr]; exact h

/-- C1: starting from a state in which an owner has at most one open trip,
any sequence of StartTrip, UpdateTrip, StopTrip, IngestOne, IngestBatch and
AppendEvent calls leaves that owner with at most one trip with
`endedAt = null` after every call. -/
theorem claim1_open_invariant (enc : String → String) (owner : Nat)
    (ops : List Op) (db : DB) (h : AtMostOneOpen db owner) :
    AtMostOneOpen (ops.foldl (stepDB enc) db) owner := by
  induction ops generalizing db with
  | nil => exact h
  | cons op rest ih => exact ih _ (step_atMostOneOpen enc owner db op h)

/-- C1 witness: a concrete call sequence (two StartTrips and a StopTrip)
starting from the empty store. -/
theorem claim1_open_invariant_witness :
    AtMostOneOpen {} 1
      ∧ AtMostOneOpen
          ([Op.start 1 {} 10, Op.start 1 {} 20,
            Op.stop 1 2 none none none 30].foldl (stepDB encId) {}) 1 :=
  ⟨by decide, claim1_open_invariant encId 1 _ _ (by decide)⟩

/-! ### C3: what StartTrip closes and creates -/

/-- The created trip's `startedAt` is the truthiness-guarded timestamp. -/
theorem startTrip_startedAt (enc : String → String) (owner : Nat)
    (req : StartTripReq) (now : Int) (db : DB) :
    (startTrip enc owner req now db).1.startedAt = jsTimestampOrNow req.timestamp now := rfl

/-- C3 counterexample: a StartTrip request supplying the timestamp 0 (a legal
payload: `Joi.number()` admits it) yields a trip whose `startedAt` is the
current time 5, not the supplied timestamp 0 — `timestamp ? ... : new Date()`
treats the falsy 0 as absent. -/
theorem claim3_counterexample :
    reqTsZero.timestamp = some 0
      ∧ (startTrip encId 9 reqTsZero 5 {}).1.startedAt = 5
      ∧ (5 : Int) ≠ 0 := by decide

/-- C3 (amended): on return of StartTrip every previously open trip of the
owner is closed at the call time, and the returned trip is a fresh open trip
of the owner whose `startedAt` is the supplied timestamp when it is truthy
(nonzero), and the current time when the timestamp is absent or 0. -/
theorem claim3_startTrip_spec (enc : String → String) (owner : Nat)
    (req : StartTripReq) (now : Int) (db : DB) (hwf : DB.WF db) :
    (∀ t ∈ db.trips, t.userId = owner → t.endedAt = none →
        ∃ t2 ∈ (startTrip enc owner req now db).2.trips,
          t2.id = t.id ∧ t2.endedAt = some now)
      ∧ (startTrip enc owner req now db).1 ∈ (startTrip enc owner req now db).2.trips
      ∧ (startTrip enc owner req now db).1.userId = owner
      ∧ (startTrip enc owner req now db).1.endedAt = none
      ∧ (startTrip enc owner req now db).1.id ∉ db.trips.map Trip.id
      ∧ (∀ ts, req.timestamp = some ts → ts ≠ 0 →
          (startTrip enc owner req now db).1.startedAt = ts)
      ∧ (req.timestamp = none → (startTrip enc owner req now db).1.startedAt = now)
      ∧ (req.timestamp = some 0 → (startTrip enc owner req now db).1.startedAt = now) := by
  refine ⟨?_, ?_, rfl, rfl, ?_, ?_, ?_, ?_⟩
  · intro t ht hu he
    refine ⟨{ t with endedAt := some now }, ?_, rfl, rfl⟩
    rw [startTrip_trips]
    apply List.mem_append_left
    unfold closeOpenTripsOf
    refine List.mem_map.mpr ⟨t, ht, ?_⟩
    rw [if_pos ⟨hu, he⟩]
  · rw [startTrip_trips]
    exact List.mem_append_right _ (List.mem_singleton.mpr rfl)
  · intro hmem
    rcases List.mem_map.mp hmem with ⟨t, ht, hid⟩
    have hlt := hwf.2 t ht
    have : (startTrip enc owner req now db).1.id = db.nextTripId := rfl
    omega
  · intro ts hts hne
    rw [startTrip_startedAt]
    simp [jsTimestampOrNow, hts, hne]
  · intro hts
    rw [startTrip_startedAt]
    simp [jsTimestampOrNow, hts]
  · intro hts
    rw [startTrip_startedAt]
    simp [jsTimestampOrNow, hts]

/-- C3 witness: starting on a store holding one open trip (id 1) of user 7. -/
theorem claim3_startTrip_spec_witness :
    DB.WF dbOpen7
      ∧ ((∀ t ∈ dbOpen7.trips, t.userId = 7 → t.endedAt = none →
            ∃ t2 ∈ (startTrip encId 7 {} 50 dbOpen7).2.trips,
              t2.id = t.id ∧ t2.endedAt = some 50)
        ∧ (startTrip encId 7 {} 50 dbOpen7).1 ∈ (startTrip encId 7 {} 50 dbOpen7).2.trips
        ∧ (startTrip encId 7 {} 50 dbOpen7).1.userId = 7
        ∧ (startTrip encId 7 {} 50 dbOpen7).1.endedAt = none
        ∧ (startTrip encId 7 {} 50 dbOpen7).1.id ∉ dbOpen7.trips.map Trip.id
        ∧ (∀ ts, ({} : StartTripReq).timestamp = some ts → ts ≠ 0 →
            (startTrip encId 7 {} 50 dbOpen7).1.startedAt = ts)
        ∧ (({} : StartTripReq).timestamp = none →
            (startTrip encId 7 {} 50 dbOpen7).1.startedAt = 50)
        ∧ (({} : StartTripReq).timestamp = some 0 →
            (startTrip encId 7 {} 50 dbOpen7).1.startedAt = 50)) :=
  ⟨by decide, claim3_startTrip_spec encId 7 {} 50 dbOpen7 (by decide)⟩

/-! ### C9: NotFound / InvalidState taxonomy of UpdateTrip and StopTrip -/

/-- `findFirst` misses exactly when no row matches id and owner. -/
theorem findTrip_none_iff (db : DB) (tripId owner : Nat) :
    findTrip db tripId owner = none
      ↔ ∀ t ∈ db.trips, ¬(t.id = tripId ∧ t.userId = owner) := by
  unfold findTrip
  rw [List.find?_eq_none]
  constructor
  · intro h t ht hc
    exact absurd (by simp [hc.1, hc.2] : (t.id == tripId && t.userId == owner) = true)
      (h t ht)
  · intro h t ht hc
    rw [Bool.and_eq_true, beq_iff_eq, beq_iff_eq] at hc
    exact h t ht hc

/-- A `findFirst` hit is a matching stored row. -/
theorem findTrip_some (db : DB) (tripId owner : Nat) (t : Trip)
    (h : findTrip db tripId owner = some t) :
    t ∈ db.trips ∧ t.id = tripId ∧ t.userId = owner := by
  unfold findTrip at h
  have h1 := List.find?_some h
  have h2 := List.mem_of_find?_eq_some h
  rw [Bool.and_eq_true, beq_iff_eq, beq_iff_eq] at h1
  exact ⟨h2, h1⟩

/-- With distinct row ids, two stored trips with the same id are equal. -/
theorem trip_id_unique (db : DB) (hids : (db.trips.map Trip.id).Nodup)
    {t u : Trip} (ht : t ∈ db.trips) (hu : u ∈ db.trips) (hid : t.id = u.id) :
    t = u :=
  List.inj_on_of_nodup_map hids ht hu hid

/-- Result trichotomy of `stopTrip`. -/
theorem stopTrip_cases (owner tripId : Nat) (ts : Option Int) (la ln : Option ℚ)
    (now : Int) (db : DB) :
    (findTrip db tripId owner = none
        ∧ stopTrip owner tripId ts la ln now db = .error .notFound)
      ∨ (∃ t, findTrip db tripId owner = some t ∧ t.endedAt.isSome = true
          ∧ stopTrip owner tripId ts la ln now db = .error .invalidState)
      ∨ (∃ t, findTrip db tripId owner = some t ∧ t.endedAt.isSome = false
          ∧ ∃ val, stopTrip owner tripId ts la ln now db = .ok val) := by
  unfold stopTrip
  split
  next hfind => exact Or.inl ⟨hfind, rfl⟩
  next t hfind =>
    split
    next hend => exact Or.inr (Or.inl ⟨t, hfind, hend, rfl⟩)
    next hend => exact Or.inr (Or.inr ⟨t, hfind, by simpa using hend, _, rfl⟩)

/-- Result trichotomy of `updateTripDetails`. -/
theorem updateTripDetails_cases (enc : String → String) (owner tripId : Nat)
    (req : UpdateTripReq) (db : DB) :
    (findTrip db tripId owner = none
        ∧ updateTripDetails enc owner tripId req db = .error .notFound)
      ∨ (∃ t, findTrip db tripId owner = some t ∧ t.endedAt.isSome = true
          ∧ updateTripDetails enc owner tripId req db = .error .invalidState)
      ∨ (∃ t, findTrip db tripId owner = some t ∧ t.endedAt.isSome = false
          ∧ ∃ val, updateTripDetails enc owner tripId req db = .ok val) := by
  unfold updateTripDetails
  split
  next hfind => exact Or.inl ⟨hfind, rfl⟩
  next t hfind =>
    split
    next hend => exact Or.inr (Or.inl ⟨t, hfind, hend, rfl⟩)
    next hend => exact Or.inr (Or.inr ⟨t, hfind, by simpa using hend, _, rfl⟩)

/-- The NotFound / InvalidState characterization shared by the two mutating
calls, derived from a result trichotomy. -/
theorem errorCharacterization {α : Type} (db : DB) (tripId owner : Nat)
    (hids : (db.trips.map Trip.id).Nodup) (res : Except ApiError α)
    (hcases : (findTrip db tripId owner = none ∧ res = .error .notFound)
      ∨ (∃ t, findTrip db tripId owner = some t ∧ t.endedAt.isSome = true
          ∧ res = .error .invalidState)
      ∨ (∃ t, findTrip db tripId owner = some t ∧ t.endedAt.isSome = false
          ∧ ∃ val, res = .ok val)) :
    (res = .error .notFound ↔ ∀ t ∈ db.trips, ¬(t.id = tripId ∧ t.userId = owner))
      ∧ (res = .error .invalidState
          ↔ ∃ t ∈ db.trips, t.id = tripId ∧ t.userId = owner ∧ t.endedAt ≠ none)
      ∧ (∀ e, res = .error e → e = .notFound ∨ e = .invalidState) := by
  rcases hcases with ⟨hfind, hres⟩ | ⟨t, hfind, hend, hres⟩ | ⟨t, hfind, hend, val, hres⟩
  · subst hres
    refine ⟨?_, ?_, ?_⟩
    · simpa using (findTrip_none_iff db tripId owner).mp hfind
    · constructor
      · intro h; exact absurd h (by simp)
      · rintro ⟨u, hu, hid, huser, _⟩
        exact absurd (And.intro hid huser)
          ((findTrip_none_iff db tripId owner).mp hfind u hu)
    · intro e he
      rw [Except.error.injEq] at he
      exact Or.inl he.symm
  · subst hres
    obtain ⟨hmem, hid, huser⟩ := findTrip_some db tripId owner t hfind
    refine ⟨?_, ?_, ?_⟩
    · constructor
      · intro h; exact absurd h (by simp)
      · intro h; exact absurd ⟨hid, huser⟩ (h t hmem)
    · constructor
      · intro _
        exact ⟨t, hmem, hid, huser, Option.isSome_iff_ne_none.mp hend⟩
      · intro _; rfl
    · intro e he
      rw [Except.error.injEq] at he
      exact Or.inr he.symm
  · subst hres
    obtain ⟨hmem, hid, huser⟩ := findTrip_some db tripId owner t hfind
    refine ⟨?_, ?_, ?_⟩
    · constructor
      · intro h; exact absurd h (by simp)
      · intro h; exact absurd ⟨hid, huser⟩ (h t hmem)
    · constructor
      · intro h; exact absurd h (by simp)
      · rintro ⟨u, hu, huid, huser2, hune⟩
        have : u = t := trip_id_unique db hids hu hmem (by rw [huid, hid])
        subst this
        have hnone : u.endedAt = none :=
          Option.not_isSome_iff_eq_none.mp (by simp [hend])
        exact absurd hnone hune
    · intro e he
      exact absurd he (by simp)

/-- C9: for both UpdateTrip and StopTrip, a missing or not-owned trip id
yields NotFound, an owned but already-closed trip yields InvalidState, and
these are the only error outcomes. -/
theorem claim9_error_taxonomy (enc : String → String) (owner tripId : Nat)
    (ts : Option Int) (la ln : Option ℚ) (now : Int) (req : UpdateTripReq)
    (db : DB) (hids : (db.trips.map Trip.id).Nodup) :
    ((stopTrip owner tripId ts la ln now db = .error .notFound
        ↔ ∀ t ∈ db.trips, ¬(t.id = tripId ∧ t.userId = owner))
      ∧ (stopTrip owner tripId ts la ln now db = .error .invalidState
          ↔ ∃ t ∈ db.trips, t.id = tripId ∧ t.userId = owner ∧ t.endedAt ≠ none)
      ∧ (∀ e, stopTrip owner tripId ts la ln now db = .error e →
          e = .notFound ∨ e = .invalidState))
    ∧ ((updateTripDetails enc owner tripId req db = .error .notFound
        ↔ ∀ t ∈ db.trips, ¬(t.id = tripId ∧ t.userId = owner))
      ∧ (updateTripDetails enc owner tripId req db = .error .invalidState
          ↔ ∃ t ∈ db.trips, t.id = tripId ∧ t.userId = owner ∧ t.endedAt ≠ none)
      ∧ (∀ e, updateTripDetails enc owner tripId req db = .error e →
          e = .notFound ∨ e = .invalidState)) :=
  ⟨errorCharacterization db tripId owner hids _
      (stopTrip_cases owner tripId ts la ln now db),
    errorCharacterization db tripId owner hids _
      (updateTripDetails_cases enc owner tripId req db)⟩

/-- C9 witness: user 5 with closed trip 1 and open trip 2 in store. -/
theorem claim9_error_taxonomy_witness :
    (dbClosedOpen.trips.map Trip.id).Nodup
      ∧ (((stopTrip 5 1 none none none 99 dbClosedOpen = .error .notFound
            ↔ ∀ t ∈ dbClosedOpen.trips, ¬(t.id = 1 ∧ t.userId = 5))
        ∧ (stopTrip 5 1 none none none 99 dbClosedOpen = .error .invalidState
            ↔ ∃ t ∈ dbClosedOpen.trips, t.id = 1 ∧ t.userId = 5 ∧ t.endedAt ≠ none)
        ∧ (∀ e, stopTrip 5 1 none none none 99 dbClosedOpen = .error e →
            e = .notFound ∨ e = .invalidState))
      ∧ ((updateTripDetails encId 5 1 {} dbClosedOpen = .error .notFound
            ↔ ∀ t ∈ dbClosedOpen.trips, ¬(t.id = 1 ∧ t.userId = 5))
        ∧ (updateTripDetails encId 5 1 {} dbClosedOpen = .error .invalidState
            ↔ ∃ t ∈ dbClosedOpen.trips, t.id = 1 ∧ t.userId = 5 ∧ t.endedAt ≠ none)
        ∧ (∀ e, updateTripDetails encId 5 1 {} dbClosedOpen = .error e →
            e = .notFound ∨ e = .invalidState))) :=
  ⟨by decide, claim9_error_taxonomy encId 5 1 none none none 99 {} dbClosedOpen (by decide)⟩

/-! ### Ingestion inversion lemmas (C2, C10) -/

/-- Result cases of `ingestLocation`, with the written store made explicit. -/
theorem ingestLocation_cases (owner tripId : Nat) (p : PointReq) (now : Int)
    (db : DB) :
    (findTrip db tripId owner = none
        ∧ ingestLocation owner tripId p now db = .error .notFound)
      ∨ (∃ t, findTrip db tripId owner = some t ∧ t.endedAt.isSome = true
          ∧ ingestLocation owner tripId p now db = .error .invalidState)
      ∨ (∃ t, findTrip db tripId owner = some t ∧ t.endedAt.isSome = false
          ∧ hasKeyConflict db.points (mkPointRow t.id now p) = true
          ∧ ingestLocation owner tripId p now db = .error .internal)
      ∨ (∃ t, findTrip db tripId owner = some t ∧ t.endedAt.isSome = false
          ∧ hasKeyConflict db.points (mkPointRow t.id now p) = false
          ∧ ingestLocation owner tripId p now db
              = .ok { db with points := db.points ++ [mkPointRow t.id now p] }) := by
  unfold ingestLocation
  split
  next hfind => exact Or.inl ⟨hfind, rfl⟩
  next t hfind =>
    split
    next hend => exact Or.inr (Or.inl ⟨t, hfind, hend, rfl⟩)
    next hend =>
      by_cases hconf : hasKeyConflict db.points (mkPointRow t.id now p) = true
      · exact Or.inr (Or.inr (Or.inl ⟨t, hfind, by simpa using hend, hconf,
          by simp [hconf]⟩))
      · rw [Bool.not_eq_true] at hconf
        exact Or.inr (Or.inr (Or.inr ⟨t, hfind, by simpa using hend, hconf,
          by simp [hconf]⟩))

/-- Result cases of `batchIngestLocations`, with the inserted count and the
written store made explicit. -/
theorem batchIngestLocations_cases (owner tripId : Nat) (pts : List PointReq)
    (now : Int) (db : DB) :
    (findTrip db tripId owner = none
        ∧ batchIngestLocations owner tripId pts now db = .error .notFound)
      ∨ (∃ t, findTrip db tripId owner = some t ∧ t.endedAt.isSome = true
          ∧ batchIngestLocations owner tripId pts now db = .error .invalidState)
      ∨ (∃ t, findTrip db tripId owner = some t ∧ t.endedAt.isSome = false
          ∧ batchIngestLocations owner tripId pts now db
              = .ok ((batchData t.id now pts).length, batchWrite t.id now pts db)) := by
  unfold batchIngestLocations
  split
  next hfind => exact Or.inl ⟨hfind, rfl⟩
  next t hfind =>
    split
    next hend => exact Or.inr (Or.inl ⟨t, hfind, hend, rfl⟩)
    next hend => exact Or.inr (Or.inr ⟨t, hfind, by simpa using hend, rfl⟩)

/-- `createMany` with `skipDuplicates` appends a selection of the payload. -/
theorem insertManySkipDup_shape (rows : List TripPoint) :
    ∀ table, ∃ sel, insertManySkipDup table rows = table ++ sel
      ∧ ∀ r ∈ sel, r ∈ rows := by
  induction rows with
  | nil => exact fun table => ⟨[], by simp [insertManySkipDup], by simp⟩
  | cons r rs ih =>
    intro table
    unfold insertManySkipDup
    by_cases hc : hasKeyConflict table r = true
    · rw [if_pos hc]
      obtain ⟨sel, hs, hmem⟩ := ih table
      exact ⟨sel, hs, fun x hx => List.mem_cons_of_mem r (hmem x hx)⟩
    · rw [if_neg hc]
      obtain ⟨sel, hs, hmem⟩ := ih (table ++ [r])
      refine ⟨r :: sel, by rw [hs, List.append_assoc]; rfl, ?_⟩
      intro x hx
      rcases List.mem_cons.mp hx with hx | hx
      · exact hx ▸ List.mem_cons_self r rs
      · exact List.mem_cons_of_mem r (hmem x hx)

/-! ### C10: a missing point timestamp is filled with the server clock -/

/-- C10: a point submitted without a timestamp is stored with the server's
current clock time, for IngestOne and for every point of an IngestBatch, so
two submissions of the same timestamp-less single-point payload at different
clock instants store two points with the two distinct clock values. -/
theorem claim10_timestamp_defaults (owner tripId : Nat) (db : DB)
    (now now1 now2 : Int) :
    (∀ p db2, p.timestamp = none → ingestLocation owner tripId p now db = .ok db2 →
        ∃ r, db2.points = db.points ++ [r] ∧ r.timestamp = now)
      ∧ (∀ pts n db2, (∀ p ∈ pts, p.timestamp = none) →
          batchIngestLocations owner tripId pts now db = .ok (n, db2) →
          ∀ r ∈ db2.points, r ∉ db.points → r.timestamp = now)
      ∧ (∀ p, p.timestamp = none → p.clientId = none → now1 ≠ now2 →
          ∀ db1, ingestLocation owner tripId p now1 db = .ok db1 →
          ∃ db2, ingestLocation owner tripId p now2 db1 = .ok db2
            ∧ (∃ r1 r2, db2.points = db.points ++ [r1, r2]
                ∧ r1.timestamp = now1 ∧ r2.timestamp = now2 ∧ r1.timestamp ≠ r2.timestamp)) := by
  refine ⟨?_, ?_, ?_⟩
  · intro p db2 hts hres
    rcases ingestLocation_cases owner tripId p now db with
      ⟨_, heq⟩ | ⟨t, _, _, heq⟩ | ⟨t, _, _, _, heq⟩ | ⟨t, _, _, _, heq⟩ <;>
      rw [heq] at hres
    · exact absurd hres (by simp)
    · exact absurd hres (by simp)
    · exact absurd hres (by simp)
    · refine ⟨mkPointRow t.id now p, ?_, ?_⟩
      · exact congrArg DB.points (Except.ok.inj hres).symm
      · simp [mkPointRow, jsTimestampOrNow, hts]
  · intro pts n db2 hts hres
    rcases batchIngestLocations_cases owner tripId pts now db with
      ⟨_, heq⟩ | ⟨t, _, _, heq⟩ | ⟨t, _, _, heq⟩ <;> rw [heq] at hres
    · exact absurd hres (by simp)
    · exact absurd hres (by simp)
    · have hpair := Except.ok.inj hres
      rw [Prod.mk.injEq] at hpair
      have hdb2 : db2.points
          = insertManySkipDup
              (deleteKeyedRows t.id (batchKeys t.id now pts) db.points)
              (batchData t.id now pts) := by
        rw [← hpair.2]; rfl
      intro r hr hrnew
      obtain ⟨sel, hshape, hsel⟩ :=
        insertManySkipDup_shape (batchData t.id now pts)
          (deleteKeyedRows t.id (batchKeys t.id now pts) db.points)
      rw [hdb2, hshape] at hr
      rcases List.mem_append.mp hr with hr | hr
      · exact absurd (List.mem_of_mem_filter hr) hrnew
      · have hrd := hsel r hr
        unfold batchData at hrd
        rcases List.mem_map.mp hrd with ⟨p, hp, rfl⟩
        have hpts : p.timestamp = none := hts p (List.mem_of_mem_take hp)
        simp [mkPointRow, jsTimestampOrNow, hpts]
  · intro p hts hcid hne db1 hres1
    rcases ingestLocation_cases owner tripId p now1 db with
      ⟨_, heq⟩ | ⟨t, _, _, heq⟩ | ⟨t, _, _, _, heq⟩ | ⟨t, hfind, hopen, _, heq⟩ <;>
      rw [heq] at hres1
    · exact absurd hres1 (by simp)
    · exact absurd hres1 (by simp)
    · exact absurd hres1 (by simp)
    · have hdb1 : db1 = { db with points := db.points ++ [mkPointRow t.id now1 p] } :=
        (Except.ok.inj hres1).symm
      have hfind1 : findTrip db1 tripId owner = some t := by
        rw [hdb1]; exact hfind
      have hrow2cid : (mkPointRow t.id now2 p).clientId = none := by
        simp [mkPointRow, jsStrOrNull, hcid]
      have hconf1 : hasKeyConflict db1.points (mkPointRow t.id now2 p) = false := by
        unfold hasKeyConflict
        rw [hrow2cid]
        rfl
      rcases ingestLocation_cases owner tripId p now2 db1 with
        ⟨hf, _⟩ | ⟨u, hf, hu, _⟩ | ⟨u, hf, _, hc, _⟩ | ⟨u, hf, _, _, heq2⟩
      · rw [hfind1] at hf; exact absurd hf (by simp)
      · rw [hfind1] at hf
        have hut : u = t := (Option.some.inj hf).symm
        subst hut
        rw [hopen] at hu
        exact absurd hu (by simp)
      · rw [hfind1] at hf
        have hut : u = t := (Option.some.inj hf).symm
        subst hut
        rw [hconf1] at hc
        exact absurd hc (by simp)
      · rw [hfind1] at hf
        have hut : u = t := (Option.some.inj hf).symm
        subst hut
        refine ⟨_, heq2, mkPointRow u.id now1 p, mkPointRow u.id now2 p, ?_, ?_, ?_, ?_⟩
        · rw [hdb1]
          simp [List.append_assoc]
        · simp [mkPointRow, jsTimestampOrNow, hts]
        · simp [mkPointRow, jsTimestampOrNow, hts]
        · simp [mkPointRow, jsTimestampOrNow, hts]
          exact hne

/-- C10 witness: the keyless timestamp-less payload `ptPlain` against the
store `dbOpen7`, with clocks 100 and 200. -/
theorem claim10_timestamp_defaults_witness :
    (∀ p db2, p.timestamp = none → ingestLocation 7 1 p 100 dbOpen7 = .ok db2 →
        ∃ r, db2.points = dbOpen7.points ++ [r] ∧ r.timestamp = 100)
      ∧ (∀ pts n db2, (∀ p ∈ pts, p.timestamp = none) →
          batchIngestLocations 7 1 pts 100 dbOpen7 = .ok (n, db2) →
          ∀ r ∈ db2.points, r ∉ dbOpen7.points → r.timestamp = 100)
      ∧ (∀ p, p.timestamp = none → p.clientId = none → (100 : Int) ≠ 200 →
          ∀ db1, ingestLocation 7 1 p 100 dbOpen7 = .ok db1 →
          ∃ db2, ingestLocation 7 1 p 200 db1 = .ok db2
            ∧ (∃ r1 r2, db2.points = dbOpen7.points ++ [r1, r2]
                ∧ r1.timestamp = 100 ∧ r2.timestamp = 200
                ∧ r1.timestamp ≠ r2.timestamp)) :=
  claim10_timestamp_defaults 7 1 dbOpen7 100 100 200

/-! ### C2: batch ingestion, dedup and replay -/

/-- C2 counterexample: one open trip, a one-point keyed payload.  The first
call inserts the point and reports `inserted = 1`; replaying the identical
payload reports `inserted = 1` again (the handler answers `data.length`), not
`inserted = 0` as the claim requires. -/
theorem claim2_counterexample :
    batchIngestLocations 7 1 ptsKeyed 100 dbOpen7 = .ok (1, dbOpen7Ingested)
      ∧ batchIngestLocations 7 1 ptsKeyed 200 dbOpen7Ingested = .ok (1, dbOpen7Ingested)
      ∧ (1 : Nat) ≠ 0 :=
  ⟨rfl, rfl, by decide⟩

/-- A truthiness-guarded timestamp that is present and nonzero ignores the
clock argument. -/
theorem jsTimestampOrNow_const (ts : Option Int) (h1 : ts ≠ none)
    (h2 : ts ≠ some 0) (a b : Int) :
    jsTimestampOrNow ts a = jsTimestampOrNow ts b := by
  cases ts with
  | none => exact absurd rfl h1
  | some v =>
    have hv : ¬ v = 0 := fun h => h2 (by rw [h])
    simp [jsTimestampOrNow, hv]

/-- A payload point with a present, nonzero timestamp maps to the same row at
any server clock. -/
theorem mkPointRow_const (tid : Nat) (p : PointReq) (h1 : p.timestamp ≠ none)
    (h2 : p.timestamp ≠ some 0) (a b : Int) :
    mkPointRow tid a p = mkPointRow tid b p := by
  unfold mkPointRow
  rw [jsTimestampOrNow_const p.timestamp h1 h2 a b]

/-- A batch payload of timestamped points builds the same rows at any clock. -/
theorem batchData_const (tid : Nat) (pts : List PointReq)
    (hts : ∀ p ∈ pts, p.timestamp ≠ none ∧ p.timestamp ≠ some 0) (a b : Int) :
    batchData tid a pts = batchData tid b pts := by
  unfold batchData
  apply List.map_congr_left
  intro p hp
  have h := hts p (List.mem_of_mem_take hp)
  exact mkPointRow_const tid p h.1 h.2 a b

/-- Every row built from an all-keyed payload matches the batch's delete
condition (its trip id is the target trip and its key is in the key list). -/
theorem batchData_delete_pred (tid : Nat) (now : Int) (pts : List PointReq)
    (hkeys : ∀ p ∈ pts, p.clientId ≠ none ∧ p.clientId ≠ some "")
    (r : TripPoint) (hr : r ∈ batchData tid now pts) :
    (r.tripId == tid && (batchKeys tid now pts).any fun c => r.clientId == some c)
      = true := by
  have hrmem := hr
  unfold batchData at hr
  rcases List.mem_map.mp hr with ⟨p, hp, rfl⟩
  have hk := hkeys p (List.mem_of_mem_take hp)
  cases hcid : p.clientId with
  | none => exact absurd hcid hk.1
  | some s =>
    have hs : ¬ s = "" := fun h => hk.2 (by rw [hcid, h])
    have hrow : (mkPointRow tid now p).clientId = some s := by
      simp [mkPointRow, jsStrOrNull, hcid, hs]
    rw [Bool.and_eq_true]
    refine ⟨by simp [mkPointRow], ?_⟩
    rw [List.any_eq_true]
    refine ⟨s, ?_, by rw [hrow]; exact beq_self_eq_true (some s)⟩
    unfold batchKeys
    exact List.mem_filterMap.mpr ⟨mkPointRow tid now p, hrmem, hrow⟩

/-- Filtering is idempotent. -/
theorem filter_idem {α : Type} (p : α → Bool) (l : List α) :
    (l.filter p).filter p = l.filter p :=
  List.filter_eq_self.mpr fun a ha => (List.mem_filter.mp ha).2

/-- Re-deleting a batch's keys right after a batch write recovers exactly the
state the write's own delete produced. -/
theorem deleteKeyedRows_after_insert (tid : Nat) (now : Int)
    (pts : List PointReq)
    (hkeys : ∀ p ∈ pts, p.clientId ≠ none ∧ p.clientId ≠ some "")
    (table : List TripPoint) :
    deleteKeyedRows tid (batchKeys tid now pts) (batchInserted tid now pts table)
      = deleteKeyedRows tid (batchKeys tid now pts) table := by
  obtain ⟨sel, hshape, hsel⟩ := insertManySkipDup_shape (batchData tid now pts)
    (deleteKeyedRows tid (batchKeys tid now pts) table)
  unfold batchInserted
  rw [hshape]
  unfold deleteKeyedRows
  rw [List.filter_append, filter_idem]
  have hnil : sel.filter
      (fun p => !(p.tripId == tid
        && (batchKeys tid now pts).any fun c => p.clientId == some c)) = [] := by
    rw [List.filter_eq_nil_iff]
    intro r hrs
    rw [batchData_delete_pred tid now pts hkeys r (hsel r hrs)]
    simp
  rw [hnil, List.append_nil]

/-- Writing back a table's own `points` value is the identity. -/
theorem DB_set_points_self (db : DB) (x : List TripPoint) (h : x = db.points) :
    ({ db with points := x } : DB) = db := by rw [h]

/-- C2 (amended): when every payload point carries a nonempty idempotency key
and a truthy timestamp, replaying the same IngestBatch payload rewrites the
identical rows and leaves the stored point set unchanged, and both calls
report `inserted` equal to the payload size (after truncation to 1000) — not
the number of rows newly written, and never 0 on the replay. -/
theorem claim2_batch_replay (owner tripId : Nat) (pts : List PointReq)
    (now1 now2 : Int) (db : DB) (n : Nat) (db1 : DB)
    (hkeys : ∀ p ∈ pts, p.clientId ≠ none ∧ p.clientId ≠ some "")
    (hts : ∀ p ∈ pts, p.timestamp ≠ none ∧ p.timestamp ≠ some 0)
    (h1 : batchIngestLocations owner tripId pts now1 db = .ok (n, db1)) :
    n = (pts.take 1000).length
      ∧ batchIngestLocations owner tripId pts now2 db1 = .ok (n, db1) := by
  rcases batchIngestLocations_cases owner tripId pts now1 db with
    ⟨_, heq⟩ | ⟨t, _, _, heq⟩ | ⟨t, hfind, hopen, heq⟩ <;> rw [heq] at h1
  · exact absurd h1 (by simp)
  · exact absurd h1 (by simp)
  · have hpair := Except.ok.inj h1
    rw [Prod.mk.injEq] at hpair
    obtain ⟨hn, hw⟩ := hpair
    have htr : db1.trips = db.trips := by rw [← hw]; rfl
    have hfind1 : findTrip db1 tripId owner = some t := by
      unfold findTrip
      rw [htr]
      exact hfind
    constructor
    · rw [← hn]
      unfold batchData
      exact List.length_map _ _
    · rcases batchIngestLocations_cases owner tripId pts now2 db1 with
        ⟨hf, _⟩ | ⟨u, hf, hu, _⟩ | ⟨u, hf, hopen2, heq2⟩
      · rw [hfind1] at hf; exact absurd hf (by simp)
      · rw [hfind1] at hf
        have hut : u = t := (Option.some.inj hf).symm
        subst hut
        rw [hopen] at hu
        exact absurd hu (by simp)
      · rw [hfind1] at hf
        have hut : u = t := (Option.some.inj hf).symm
        subst hut
        have hdata : batchData u.id now2 pts = batchData u.id now1 pts :=
          batchData_const u.id pts hts now2 now1
        have hkeysEq : batchKeys u.id now2 pts = batchKeys u.id now1 pts := by
          unfold batchKeys
          rw [hdata]
        have hpts1 : db1.points = batchInserted u.id now1 pts db.points := by
          rw [← hw]; rfl
        have hBpts : batchInserted u.id now2 pts db1.points = db1.points := by
          unfold batchInserted
          rw [hkeysEq, hdata, hpts1,
            deleteKeyedRows_after_insert u.id now1 pts hkeys db.points]
          rfl
        have hB : batchWrite u.id now2 pts db1 = db1 := by
          unfold batchWrite
          exact DB_set_points_self db1 _ hBpts
        have hlen2 : (batchData u.id now2 pts).length = n := by
          rw [hdata]; exact hn
        rw [heq2, hlen2, hB]

/-- C2 witness for the amended replay law, on the keyed one-point payload. -/
theorem claim2_batch_replay_witness :
    (∀ p ∈ ptsKeyed, p.clientId ≠ none ∧ p.clientId ≠ some "")
      ∧ (∀ p ∈ ptsKeyed, p.timestamp ≠ none ∧ p.timestamp ≠ some 0)
      ∧ batchIngestLocations 7 1 ptsKeyed 100 dbOpen7 = .ok (1, dbOpen7Ingested)
      ∧ (1 = (ptsKeyed.take 1000).length
          ∧ batchIngestLocations 7 1 ptsKeyed 200 dbOpen7Ingested
              = .ok (1, dbOpen7Ingested)) :=
  ⟨by decide, by decide, rfl,
    claim2_batch_replay 7 1 ptsKeyed 100 200 dbOpen7 1 dbOpen7Ingested
      (by decide) (by decide) rfl⟩

/-! ### C8: streak walk and active-day count -/

/-- With fuel known to reach a missing day, the streak walk returns the
length of the run of present days: all the days it walked are present and the
next one back is absent. -/
theorem streakLoop_spec (days : Finset Int) (fuel : Nat) :
    ∀ d : Int, (∃ k : Nat, k < fuel ∧ d - (k : Int) ∉ days) →
    (∀ j : Nat, j < streakLoop days fuel d → d - (j : Int) ∈ days)
      ∧ d - (streakLoop days fuel d : Int) ∉ days := by
  induction fuel with
  | zero =>
    intro d hfuel
    obtain ⟨k, hk, _⟩ := hfuel
    omega
  | succ fuel ih =>
    intro d hfuel
    by_cases hd : d ∈ days
    · have hstep : streakLoop days (fuel + 1) d = streakLoop days fuel (d - 1) + 1 := by
        simp [streakLoop, hd]
      have hfuel2 : ∃ k : Nat, k < fuel ∧ (d - 1) - (k : Int) ∉ days := by
        obtain ⟨k, hk, hkd⟩ := hfuel
        cases k with
        | zero => simp at hkd; exact absurd hd hkd
        | succ k2 =>
          refine ⟨k2, by omega, ?_⟩
          have heq : (d - 1) - (k2 : Int) = d - ((k2 + 1 : Nat) : Int) := by
            push_cast; ring
          rw [heq]
          exact hkd
      obtain ⟨h1, h2⟩ := ih (d - 1) hfuel2
      rw [hstep]
      constructor
      · intro j hj
        cases j with
        | zero => simpa using hd
        | succ j2 =>
          have hmem := h1 j2 (by omega)
          have heq : (d - 1) - (j2 : Int) = d - ((j2 + 1 : Nat) : Int) := by
            push_cast; ring
          rwa [heq] at hmem
      · have heq : (d - 1) - (streakLoop days fuel (d - 1) : Int)
            = d - ((streakLoop days fuel (d - 1) + 1 : Nat) : Int) := by
          push_cast; ring
        rwa [heq] at h2
    · have hstep : streakLoop days (fuel + 1) d = 0 := by
        simp [streakLoop, hd]
      rw [hstep]
      exact ⟨fun j hj => absurd hj (by omega), by simpa using hd⟩

/-- Walking back `card + 1` days from anywhere must leave the finite day set:
the default fuel of `getUserStreak` is never exhausted. -/
theorem streak_fuel_exists (days : Finset Int) (d : Int) :
    ∃ k : Nat, k < days.card + 1 ∧ d - (k : Int) ∉ days := by
  by_contra h
  push_neg at h
  have hsub : (Finset.range (days.card + 1)).image (fun k : Nat => d - (k : Int))
      ⊆ days := by
    intro x hx
    rcases Finset.mem_image.mp hx with ⟨k, hk, rfl⟩
    exact h k (Finset.mem_range.mp hk)
  have hcard : ((Finset.range (days.card + 1)).image
      (fun k : Nat => d - (k : Int))).card = days.card + 1 := by
    rw [Finset.card_image_of_injOn, Finset.card_range]
    intro a _ b _ hab
    have hab2 : d - (a : Int) = d - (b : Int) := hab
    omega
  have hle := Finset.card_le_card hsub
  omega

/-- C8: `activeDaysLast60` counts the distinct start days of the owner's
trips in the trailing 60 days, and `currentStreakDays` is the count of
consecutive such days walking backward from today, stopping at the first
missing day. -/
theorem claim8_streak (owner : Nat) (now : Int) (db : DB) :
    (∀ d : Int, d ∈ activeDaySet db owner now
        ↔ ∃ t ∈ db.trips, t.userId = owner ∧ now - 60 * dayMs ≤ t.startedAt
            ∧ dayOf t.startedAt = d)
      ∧ (getUserStreak owner now db).2 = (activeDaySet db owner now).card
      ∧ (∀ j : Nat, j < (getUserStreak owner now db).1
          → dayOf now - (j : Int) ∈ activeDaySet db owner now)
      ∧ dayOf now - ((getUserStreak owner now db).1 : Int)
          ∉ activeDaySet db owner now := by
  refine ⟨?_, rfl, ?_, ?_⟩
  · intro d
    unfold activeDaySet
    rw [List.mem_toFinset]
    constructor
    · intro hd
      rcases List.mem_map.mp hd with ⟨t, ht, rfl⟩
      have hmem := List.mem_filter.mp ht
      have hc := of_decide_eq_true hmem.2
      exact ⟨t, hmem.1, hc.1, hc.2, rfl⟩
    · rintro ⟨t, ht, hu, hw, rfl⟩
      exact List.mem_map.mpr ⟨t, List.mem_filter.mpr ⟨ht, decide_eq_true ⟨hu, hw⟩⟩, rfl⟩
  · exact (streakLoop_spec (activeDaySet db owner now) _ (dayOf now)
      (streak_fuel_exists _ _)).1
  · exact (streakLoop_spec (activeDaySet db owner now) _ (dayOf now)
      (streak_fuel_exists _ _)).2

/-- C8 witness: trips on days 64, 63, 62, none on 61, today = day 64 —
streak 3 and 3 active days, and the walk facts at that instance. -/
theorem claim8_streak_witness :
    getUserStreak 3 nowStreak dbStreak = (3, 3)
      ∧ (∀ j : Nat, j < (getUserStreak 3 nowStreak dbStreak).1
          → dayOf nowStreak - (j : Int) ∈ activeDaySet dbStreak 3 nowStreak)
      ∧ dayOf nowStreak - ((getUserStreak 3 nowStreak dbStreak).1 : Int)
          ∉ activeDaySet dbStreak 3 nowStreak :=
  ⟨by decide, (claim8_streak 3 nowStreak dbStreak).2.2.1,
    (claim8_streak 3 nowStreak dbStreak).2.2.2⟩

/-! ### C6 and C7: the weekly leaderboard -/

/-- Group-sum over the 7-day window rewritten as a per-trip contribution sum:
in-window trips contribute their stored distance, older trips contribute 0. -/
theorem weeklyDistance_contribution (l : List Trip) (now : Int) (uid : Nat) :
    ((l.filter fun t => decide (t.userId = uid ∧ now - 7 * dayMs ≤ t.startedAt)).map
        (fun t => t.distanceMeters.getD 0)).sum
      = ((l.filter fun t => t.userId == uid).map (weeklyContribution now)).sum := by
  induction l with
  | nil => rfl
  | cons t l ih =>
    by_cases hu : t.userId = uid
    · by_cases hw : now - 7 * dayMs ≤ t.startedAt
      · simp only [List.filter_cons, decide_eq_true_eq, hu, hw, and_self,
          if_true, beq_self_eq_true, List.map_cons, List.sum_cons, ih,
          weeklyContribution, if_pos hw]
      · simp only [List.filter_cons, decide_eq_true_eq, hu, hw, and_false,
          if_false, beq_self_eq_true, if_true, List.map_cons, List.sum_cons, ih,
          weeklyContribution, if_neg hw]
        omega
    · have hbeq : (t.userId == uid) = false := beq_eq_false_iff_ne.mpr hu
      simp only [List.filter_cons, decide_eq_true_eq, hu, false_and, if_false,
        hbeq, Bool.false_eq_true, ih]

/-- C6: every returned leaderboard row's distance is the sum of the owner's
per-trip weekly contributions (in-window trips count their stored distance,
trips older than 7 days contribute 0), the list is sorted descending by
(distance, companion count), and it is truncated to 100 rows. -/
theorem claim6_leaderboard (now : Int) (db : DB) :
    (∀ r ∈ getWeeklyLeaderboard now db,
        r.distance = ((db.trips.filter fun t => t.userId == r.userId).map
          (weeklyContribution now)).sum)
      ∧ (getWeeklyLeaderboard now db).Sorted lbGe
      ∧ (getWeeklyLeaderboard now db).length ≤ 100 := by
  refine ⟨?_, ?_, ?_⟩
  · intro r hr
    have hr2 : r ∈ List.insertionSort lbGe (db.users.map (mkLBRow db now)) :=
      List.mem_of_mem_take hr
    have hr3 := (List.perm_insertionSort lbGe _).mem_iff.mp hr2
    rcases List.mem_map.mp hr3 with ⟨u, _, rfl⟩
    exact weeklyDistance_contribution db.trips now u.id
  · exact List.Pairwise.sublist (List.take_sublist _ _)
      (List.sorted_insertionSort lbGe _)
  · unfold getWeeklyLeaderboard
    rw [List.length_take]
    exact min_le_left _ _

/-- C6 witness: user 1 has an in-window 5000 m trip and an old 7777 m trip;
the returned row for user 1 carries exactly 5000. -/
theorem claim6_leaderboard_witness :
    (rowBoard ∈ getWeeklyLeaderboard (1000 * dayMs) dbBoard)
      ∧ rowBoard.distance
          = ((dbBoard.trips.filter fun t => t.userId == rowBoard.userId).map
              (weeklyContribution (1000 * dayMs))).sum
      ∧ (getWeeklyLeaderboard (1000 * dayMs) dbBoard).Sorted lbGe
      ∧ (getWeeklyLeaderboard (1000 * dayMs) dbBoard).length ≤ 100 :=
  ⟨by decide,
    (claim6_leaderboard (1000 * dayMs) dbBoard).1 _ (by decide),
    (claim6_leaderboard (1000 * dayMs) dbBoard).2.1,
    (claim6_leaderboard (1000 * dayMs) dbBoard).2.2⟩

/-- C7 counterexample: a store with one registered user and no trips at all.
The leaderboard returns that user with distance 0 instead of omitting them
(the SQL LEFT JOINs from `users`), and the handler takes no roster flag. -/
theorem claim7_counterexample :
    dbLoneUser.trips = [] ∧ getWeeklyLeaderboard 0 dbLoneUser = [rowLone] :=
  ⟨rfl, by decide⟩

/-- C7 (amended): far from being omitted, every registered user appears on
the leaderboard whenever there are at most 100 users, and a user with no trip
in the trailing 7 days appears with distance 0. -/
theorem claim7_zero_users_listed (now : Int) (db : DB)
    (hcap : db.users.length ≤ 100) :
    ∀ u ∈ db.users,
      (∀ t ∈ db.trips, t.userId = u.id → t.startedAt < now - 7 * dayMs) →
      ∃ r ∈ getWeeklyLeaderboard now db, r.userId = u.id ∧ r.distance = 0 := by
  intro u hu hnowin
  unfold getWeeklyLeaderboard
  rw [List.take_of_length_le]
  · refine ⟨mkLBRow db now u, ?_, rfl, ?_⟩
    · exact (List.perm_insertionSort lbGe _).mem_iff.mpr
        (List.mem_map_of_mem _ hu)
    · show weeklyDistance db now u.id = 0
      unfold weeklyDistance
      have hnil : (db.trips.filter fun t =>
          decide (t.userId = u.id ∧ now - 7 * dayMs ≤ t.startedAt)) = [] := by
        rw [List.filter_eq_nil_iff]
        intro t ht hdec
        have hc := of_decide_eq_true hdec
        have := hnowin t ht hc.1
        omega
      rw [hnil]
      rfl
  · rw [(List.perm_insertionSort lbGe _).length_eq, List.length_map]
    exact hcap

/-- C7 witness for the amended inclusion law, on the lone-user store. -/
theorem claim7_zero_users_listed_witness :
    dbLoneUser.users.length ≤ 100
      ∧ ∀ u ∈ dbLoneUser.users,
          (∀ t ∈ dbLoneUser.trips, t.userId = u.id → t.startedAt < 0 - 7 * dayMs) →
          ∃ r ∈ getWeeklyLeaderboard 0 dbLoneUser, r.userId = u.id ∧ r.distance = 0 :=
  ⟨by decide, claim7_zero_users_listed 0 dbLoneUser (by decide)⟩

/-! ### C4 and C5: distance aggregation -/

/-- `Math.atan2` on a unit-circle point of the first quadrant recovers the
angle. -/
theorem atan2_sin_cos (θ : ℝ) (h0 : 0 ≤ θ) (h1 : θ ≤ Real.pi / 2) :
    atan2 (Real.sin θ) (Real.cos θ) = θ := by
  have hπ := Real.pi_pos
  unfold atan2
  rw [Complex.mk_eq_add_mul_I, Complex.ofReal_cos, Complex.ofReal_sin]
  exact Complex.arg_cos_add_sin_mul_I ⟨by linarith, by linarith⟩

/-- Along the equator the haversine formula computes an exact arc length:
`R · Δlon · π/180` for an eastward longitude difference of at most 180°. -/
theorem haversine_equator (lon1 lon2 : ℝ) (h0 : 0 ≤ lon2 - lon1)
    (h1 : lon2 - lon1 ≤ 180) :
    haversine 0 lon1 0 lon2 = 6371000 * ((lon2 - lon1) * Real.pi / 180) := by
  have hπ := Real.pi_pos
  have hA : haverA 0 lon1 0 lon2 = Real.sin (toRad (lon2 - lon1) / 2) ^ 2 := by
    unfold haverA
    norm_num [toRad]
  unfold haversine
  rw [hA]
  set θ := toRad (lon2 - lon1) / 2 with hθdef
  have hθval : θ = (lon2 - lon1) * Real.pi / 360 := by
    rw [hθdef]; unfold toRad; ring
  have hθ0 : 0 ≤ θ := by
    rw [hθval]
    apply div_nonneg (mul_nonneg h0 (le_of_lt hπ))
    norm_num
  have hθh : θ ≤ Real.pi / 2 := by
    rw [hθval]
    rw [div_le_div_iff (by norm_num) (by norm_num)]
    nlinarith
  have es : Real.sqrt (Real.sin θ ^ 2) = Real.sin θ :=
    Real.sqrt_sq (Real.sin_nonneg_of_nonneg_of_le_pi hθ0 (by linarith))
  have ecs : Real.sqrt (1 - Real.sin θ ^ 2) = Real.cos θ := by
    rw [show (1 : ℝ) - Real.sin θ ^ 2 = Real.cos θ ^ 2 by rw [Real.cos_sq']]
    exact Real.sqrt_sq (Real.cos_nonneg_of_mem_Icc ⟨by linarith, hθh⟩)
  rw [es, ecs, atan2_sin_cos θ hθ0 hθh, hθval]
  ring

/-- Result cases of `getTripDetail`. -/
theorem getTripDetail_cases (owner tripId : Nat) (db : DB) :
    (findTrip db tripId owner = none
        ∧ getTripDetail owner tripId db = .error .notFound)
      ∨ (∃ t, findTrip db tripId owner = some t
          ∧ getTripDetail owner tripId db = .ok (tripDetailResp db t)) := by
  unfold getTripDetail
  split
  next hfind => exact Or.inl ⟨hfind, rfl⟩
  next t hfind => exact Or.inr ⟨t, hfind, rfl⟩

/-- The loop's `distance` accumulator is the sum of the segment distances. -/
theorem distAcc_eq_sum (segs : List (TripPoint × TripPoint)) :
    distAcc segs = (segs.map segDist).sum := by
  suffices h : ∀ init : ℝ, segs.foldl (fun acc s => acc + segDist s) init
      = init + (segs.map segDist).sum by
    simpa [distAcc] using h 0
  induction segs with
  | nil => intro init; simp
  | cons s ss ih =>
    intro init
    rw [List.foldl_cons, ih, List.map_cons, List.sum_cons]
    ring

/-- The loop's `byMode` bucket for `m` is the summed distance of the segments
tagged `m`. -/
theorem byModeAcc_eq_sum (segs : List (TripPoint × TripPoint)) (m : String) :
    byModeAcc segs m = ((segs.filter fun s => segTag s = m).map segDist).sum := by
  suffices h : ∀ f : String → ℝ, (segs.foldl byModeUpd f) m
      = f m + ((segs.filter fun s => segTag s = m).map segDist).sum by
    simpa [byModeAcc] using h fun _ => 0
  induction segs with
  | nil => intro f; simp
  | cons s ss ih =>
    intro f
    rw [List.foldl_cons, ih]
    by_cases hm : segTag s = m
    · rw [List.filter_cons, if_pos (by simpa using hm), List.map_cons, List.sum_cons]
      unfold byModeUpd
      rw [if_pos hm]
      ring
    · rw [List.filter_cons, if_neg (by simpa using hm)]
      unfold byModeUpd
      rw [if_neg hm]

/-- C4 counterexample: a trip with two stored points, the origin and a point
90° east on the equator.  The claim's value — the haversine sum — is
6371000·π/2, an irrational number; the returned `distanceMeters` is the
integer `Math.round` of it, so they differ. -/
theorem claim4_counterexample :
    okB (getTripDetail 7 1 dbQuarter) = true
      ∧ ((respOf (getTripDetail 7 1 dbQuarter)).distanceMeters : ℝ)
          ≠ specDistanceSum dbQuarter 1 := by
  have hres : getTripDetail 7 1 dbQuarter = .ok (tripDetailResp dbQuarter tripOpen7) := rfl
  constructor
  · rw [hres]; rfl
  · have hdm : (respOf (getTripDetail 7 1 dbQuarter)).distanceMeters
        = round (distAcc (segmentsOf (sortedPointsOf dbQuarter 1))) := by
      rw [hres]; rfl
    rw [hdm]
    have hsort : sortedPointsOf dbQuarter 1 = [pQ0, pQ1] := by decide
    have hspec : specDistanceSum dbQuarter 1 = ((3185500 : ℚ) : ℝ) * Real.pi := by
      have h1 : specDistanceSum dbQuarter 1
          = ((segmentsOf (sortedPointsOf dbQuarter 1)).map segDist).sum := rfl
      rw [h1, hsort]
      rw [show segmentsOf [pQ0, pQ1] = [(pQ0, pQ1)] from rfl]
      rw [List.map_cons, List.map_nil, List.sum_cons, List.sum_nil]
      have h2 : segDist (pQ0, pQ1) = haversine 0 0 0 90 := by
        unfold segDist
        norm_num [pQ0, pQ1]
      rw [h2, haversine_equator 0 90 (by norm_num) (by norm_num)]
      push_cast
      ring
    have hirr : Irrational (((3185500 : ℚ) : ℝ) * Real.pi) :=
      irrational_pi.rat_mul (by norm_num)
    rw [hspec]
    intro hcontra
    exact (hirr.ne_int _) hcontra.symm

/-- C4 (amended): `distanceMeters` is the nearest-integer rounding of the
haversine sum over consecutive pairs of the points sorted ascending by
timestamp, and each `distanceByMode` value is the rounding of the distance
attributed to that travel-mode tag, a segment counting toward the tag of its
later point (`"unknown"` when untagged). -/
theorem claim4_distance_spec (owner tripId : Nat) (db : DB)
    (resp : TripDetailResp) (h : getTripDetail owner tripId db = .ok resp) :
    resp.distanceMeters = round (specDistanceSum db tripId)
      ∧ (∀ m, resp.distanceByMode m = round (specModeSum db tripId m))
      ∧ resp.modeKeys = objKeys ((segmentsOf (sortedPointsOf db tripId)).map segTag) := by
  rcases getTripDetail_cases owner tripId db with ⟨hf, heq⟩ | ⟨t, hf, heq⟩ <;>
    rw [heq] at h
  · exact absurd h (by simp)
  · have hr : resp = tripDetailResp db t := (Except.ok.inj h).symm
    have hid : t.id = tripId := (findTrip_some db tripId owner t hf).2.1
    subst hr
    refine ⟨?_, ?_, ?_⟩
    · show round (distAcc (segmentsOf (sortedPointsOf db t.id)))
        = round (specDistanceSum db tripId)
      rw [hid, distAcc_eq_sum]
      rfl
    · intro m
      show round (byModeAcc (segmentsOf (sortedPointsOf db t.id)) m)
        = round (specModeSum db tripId m)
      rw [hid, byModeAcc_eq_sum]
      rfl
    · show modeKeysOf (segmentsOf (sortedPointsOf db t.id)) = _
      rw [hid]
      rfl

/-- C4 witness: the store with one open trip and no points (empty sums). -/
theorem claim4_distance_spec_witness :
    getTripDetail 7 1 dbOpen7 = .ok (tripDetailResp dbOpen7 tripOpen7)
      ∧ ((tripDetailResp dbOpen7 tripOpen7).distanceMeters
            = round (specDistanceSum dbOpen7 1)
        ∧ (∀ m, (tripDetailResp dbOpen7 tripOpen7).distanceByMode m
            = round (specModeSum dbOpen7 1 m))
        ∧ (tripDetailResp dbOpen7 tripOpen7).modeKeys
            = objKeys ((segmentsOf (sortedPointsOf dbOpen7 1)).map segTag)) :=
  ⟨rfl, claim4_distance_spec 7 1 dbOpen7 _ rfl⟩

/-! ### C5: the per-mode sum law -/

/-- Membership in the accumulated JS-object key list. -/
theorem objKeys_go_mem (tags : List String) :
    ∀ (acc : List String) (m : String),
      m ∈ tags.foldl (fun ks k => if k ∈ ks then ks else ks ++ [k]) acc
        ↔ m ∈ acc ∨ m ∈ tags := by
  induction tags with
  | nil => simp
  | cons t ts ih =>
    intro acc m
    rw [List.foldl_cons]
    by_cases ht : t ∈ acc
    · rw [if_pos ht, ih]
      constructor
      · rintro (h | h)
        · exact Or.inl h
        · exact Or.inr (List.mem_cons_of_mem t h)
      · rintro (h | h)
        · exact Or.inl h
        · rcases List.mem_cons.mp h with rfl | h
          · exact Or.inl ht
          · exact Or.inr h
    · rw [if_neg ht, ih]
      rw [List.mem_append, List.mem_singleton, List.mem_cons]
      tauto

/-- The keys of the `byMode` object are exactly the tags that occurred. -/
theorem mem_objKeys (tags : List String) (m : String) :
    m ∈ objKeys tags ↔ m ∈ tags := by
  unfold objKeys
  rw [objKeys_go_mem]
  simp

/-- The accumulated JS-object key list stays duplicate-free. -/
theorem objKeys_go_nodup (tags : List String) :
    ∀ acc : List String, acc.Nodup →
      (tags.foldl (fun ks k => if k ∈ ks then ks else ks ++ [k]) acc).Nodup := by
  induction tags with
  | nil => exact fun acc h => h
  | cons t ts ih =>
    intro acc hacc
    rw [List.foldl_cons]
    by_cases ht : t ∈ acc
    · rw [if_pos ht]; exact ih acc hacc
    · rw [if_neg ht]
      refine ih _ ?_
      rw [List.nodup_append]
      refine ⟨hacc, List.nodup_singleton t, ?_⟩
      intro a ha hat
      rw [List.mem_singleton] at hat
      subst hat
      exact ht ha

/-- The keys of the `byMode` object are duplicate-free. -/
theorem objKeys_nodup (tags : List String) : (objKeys tags).Nodup :=
  objKeys_go_nodup tags [] List.nodup_nil

/-- Summing a pointwise update over a duplicate-free key list containing the
updated key adds exactly the increment once. -/
theorem sum_map_update (S : List String) (hS : S.Nodup) (a : String)
    (ha : a ∈ S) (c : ℝ) (g : String → ℝ) :
    (S.map fun m => if a = m then c + g m else g m).sum = c + (S.map g).sum := by
  induction S with
  | nil => exact absurd ha (List.not_mem_nil a)
  | cons x S ih =>
    rw [List.map_cons, List.sum_cons, List.map_cons, List.sum_cons]
    by_cases hax : a = x
    · subst hax
      rw [if_pos rfl]
      have hnot : a ∉ S := (List.nodup_cons.mp hS).1
      have hrest : (S.map fun m => if a = m then c + g m else g m) = S.map g := by
        apply List.map_congr_left
        intro m hm
        rw [if_neg]
        intro hc
        exact hnot (hc ▸ hm)
      rw [hrest]
      ring
    · rw [if_neg hax]
      have haS : a ∈ S := by
        rcases List.mem_cons.mp ha with h | h
        · exact absurd h hax
        · exact h
      rw [ih (List.nodup_cons.mp hS).2 haS]
      ring

/-- Partitioning the segment-distance sum over a duplicate-free key list that
covers every occurring tag. -/
theorem sum_fibers (S : List String) (hS : S.Nodup)
    (segs : List (TripPoint × TripPoint)) (hcov : ∀ s ∈ segs, segTag s ∈ S) :
    (S.map fun m => ((segs.filter fun s => segTag s = m).map segDist).sum).sum
      = (segs.map segDist).sum := by
  induction segs with
  | nil => simp
  | cons s ss ih =>
    have hcov2 : ∀ u ∈ ss, segTag u ∈ S := fun u hu => hcov u (List.mem_cons_of_mem s hu)
    have hstep : (S.map fun m => ((List.filter (fun u => segTag u = m) (s :: ss)).map
        segDist).sum).sum
        = (S.map fun m => if segTag s = m
            then segDist s + ((ss.filter fun u => segTag u = m).map segDist).sum
            else ((ss.filter fun u => segTag u = m).map segDist).sum).sum := by
      congr 1
      apply List.map_congr_left
      intro m _
      rw [List.filter_cons]
      by_cases hm : segTag s = m
      · rw [if_pos (by simpa using hm), if_pos hm, List.map_cons, List.sum_cons]
      · rw [if_neg (by simpa using hm), if_neg hm]
    rw [hstep, sum_map_update S hS (segTag s) (hcov s (List.mem_cons_self s ss))
      (segDist s) _, ih hcov2, List.map_cons, List.sum_cons]

/-- Subtraction distributes over list sums (pointwise). -/
theorem list_sum_sub (l : List String) (f g : String → ℝ) :
    (l.map f).sum - (l.map g).sum = (l.map fun x => f x - g x).sum := by
  induction l with
  | nil => simp
  | cons x l ih =>
    rw [List.map_cons, List.map_cons, List.map_cons, List.sum_cons, List.sum_cons,
      List.sum_cons, ← ih]
    ring

/-- Triangle inequality for list sums. -/
theorem list_abs_sum_le (l : List String) (f : String → ℝ) :
    |(l.map f).sum| ≤ (l.map fun x => |f x|).sum := by
  induction l with
  | nil => simp
  | cons x l ih =>
    rw [List.map_cons, List.map_cons, List.sum_cons, List.sum_cons]
    exact le_trans (abs_add _ _) (by linarith)

/-- A list sum of uniformly bounded values is bounded by length times the
bound. -/
theorem list_sum_le_mul (l : List String) (f : String → ℝ) (c : ℝ)
    (h : ∀ x ∈ l, f x ≤ c) :
    (l.map f).sum ≤ (l.length : ℝ) * c := by
  induction l with
  | nil => simp
  | cons x l ih =>
    rw [List.map_cons, List.sum_cons, List.length_cons]
    have h1 := h x (List.mem_cons_self x l)
    have h2 := ih fun y hy => h y (List.mem_cons_of_mem x hy)
    push_cast
    nlinarith

/-- `Math.round` of one ≈ 0.6004 m segment (the `dbTiny` step) is 1. -/
theorem round_tiny_seg : round ((172017 / 900000 : ℝ) * Real.pi) = 1 := by
  have hπl := Real.pi_gt_3141592
  have hπu := Real.pi_lt_3141593
  rw [round_eq, Int.floor_eq_iff]
  constructor
  · push_cast
    nlinarith
  · push_cast
    nlinarith

/-- `Math.round` of the ≈ 1.2009 m two-segment total of `dbTiny` is also 1. -/
theorem round_tiny_total : round ((172017 / 450000 : ℝ) * Real.pi) = 1 := by
  have hπl := Real.pi_gt_3141592
  have hπu := Real.pi_lt_3141593
  rw [round_eq, Int.floor_eq_iff]
  constructor
  · push_cast
    nlinarith
  · push_cast
    nlinarith

/-- The two segments of the `dbTiny` trip each measure (172017/900000)·π m. -/
theorem dbTiny_segment_lengths :
    segDist (pQ0, pT1) = (172017 / 900000 : ℝ) * Real.pi
      ∧ segDist (pT1, pT2) = (172017 / 900000 : ℝ) * Real.pi := by
  constructor
  · have h1 : segDist (pQ0, pT1) = haversine 0 0 0 (27 / 5000000 : ℝ) := by
      unfold segDist
      norm_num [pQ0, pT1]
    rw [h1, haversine_equator 0 (27 / 5000000) (by norm_num) (by norm_num)]
    ring
  · have h1 : segDist (pT1, pT2)
        = haversine 0 (27 / 5000000 : ℝ) 0 (27 / 2500000 : ℝ) := by
      unfold segDist
      norm_num [pT1, pT2]
    rw [h1, haversine_equator (27 / 5000000) (27 / 2500000) (by norm_num) (by norm_num)]
    ring

/-- C5 counterexample: on the two-mode sub-meter trip `dbTiny` the serialized
`distanceByMode` values are 1 + 1 = 2 (each bucket rounded up from ≈ 0.60),
while `distanceMeters` is 1 (the total ≈ 1.20 rounded down), so the map's
values miss the total by a full meter — far beyond 1e-6 relative. -/
theorem claim5_counterexample :
    okB (getTripDetail 7 1 dbTiny) = true
      ∧ ¬ (|((mapValuesSum (respOf (getTripDetail 7 1 dbTiny)) : ℤ) : ℝ)
            - ((respOf (getTripDetail 7 1 dbTiny)).distanceMeters : ℝ)|
          ≤ 1 / 1000000 * |((respOf (getTripDetail 7 1 dbTiny)).distanceMeters : ℝ)|) := by
  have hres : getTripDetail 7 1 dbTiny = .ok (tripDetailResp dbTiny tripOpen7) := rfl
  have hsort : sortedPointsOf dbTiny 1 = [pQ0, pT1, pT2] := rfl
  obtain ⟨hL1, hL2⟩ := dbTiny_segment_lengths
  have hwalk : (tripDetailResp dbTiny tripOpen7).distanceByMode "walk" = 1 := by
    show round (byModeAcc (segmentsOf (sortedPointsOf dbTiny 1)) "walk") = 1
    rw [hsort, byModeAcc_eq_sum]
    rw [show (segmentsOf [pQ0, pT1, pT2]).filter (fun s => segTag s = "walk")
      = [(pQ0, pT1)] from rfl]
    rw [List.map_cons, List.map_nil, List.sum_cons, List.sum_nil, hL1, add_zero]
    exact round_tiny_seg
  have hbike : (tripDetailResp dbTiny tripOpen7).distanceByMode "bike" = 1 := by
    show round (byModeAcc (segmentsOf (sortedPointsOf dbTiny 1)) "bike") = 1
    rw [hsort, byModeAcc_eq_sum]
    rw [show (segmentsOf [pQ0, pT1, pT2]).filter (fun s => segTag s = "bike")
      = [(pT1, pT2)] from rfl]
    rw [List.map_cons, List.map_nil, List.sum_cons, List.sum_nil, hL2, add_zero]
    exact round_tiny_seg
  have hdm : (tripDetailResp dbTiny tripOpen7).distanceMeters = 1 := by
    show round (distAcc (segmentsOf (sortedPointsOf dbTiny 1))) = 1
    rw [hsort, distAcc_eq_sum]
    rw [show segmentsOf [pQ0, pT1, pT2] = [(pQ0, pT1), (pT1, pT2)] from rfl]
    rw [List.map_cons, List.map_cons, List.map_nil, List.sum_cons, List.sum_cons,
      List.sum_nil, hL1, hL2]
    rw [show (172017 / 900000 : ℝ) * Real.pi + ((172017 / 900000 : ℝ) * Real.pi + 0)
      = (172017 / 450000 : ℝ) * Real.pi from by ring]
    exact round_tiny_total
  have hmk : (tripDetailResp dbTiny tripOpen7).modeKeys = ["walk", "bike"] := by
    show modeKeysOf (segmentsOf (sortedPointsOf dbTiny 1)) = ["walk", "bike"]
    rw [hsort]
    rfl
  have hmvs : mapValuesSum (tripDetailResp dbTiny tripOpen7) = 2 := by
    unfold mapValuesSum
    rw [hmk, List.map_cons, List.map_cons, List.map_nil, List.sum_cons,
      List.sum_cons, List.sum_nil, hwalk, hbike]
    decide
  constructor
  · rw [hres]; rfl
  · rw [hres]
    show ¬ (|((mapValuesSum (tripDetailResp dbTiny tripOpen7) : ℤ) : ℝ)
          - ((tripDetailResp dbTiny tripOpen7).distanceMeters : ℝ)|
        ≤ 1 / 1000000 * |((tripDetailResp dbTiny tripOpen7).distanceMeters : ℝ)|)
    rw [hmvs, hdm]
    norm_num

/-- C5 (amended): before rounding, the per-mode distances over the serialized
keys sum exactly to the total haversine distance; the response rounds each
bucket and the total separately, so the returned values' sum can miss
`distanceMeters` by up to half a meter per bucket plus a half meter — not
within 1e-6 relative. -/
theorem claim5_mode_sum_law (owner tripId : Nat) (db : DB)
    (resp : TripDetailResp) (h : getTripDetail owner tripId db = .ok resp) :
    ((resp.modeKeys.map fun m => specModeSum db tripId m).sum
        = specDistanceSum db tripId)
      ∧ |((mapValuesSum resp : ℤ) : ℝ) - (resp.distanceMeters : ℝ)|
          ≤ ((resp.modeKeys.length : ℝ) + 1) / 2 := by
  rcases getTripDetail_cases owner tripId db with ⟨hf, heq⟩ | ⟨t, hf, heq⟩ <;>
    rw [heq] at h
  · exact absurd h (by simp)
  · have hr : resp = tripDetailResp db t := (Except.ok.inj h).symm
    have hid : t.id = tripId := (findTrip_some db tripId owner t hf).2.1
    subst hr
    have hkeys : (tripDetailResp db t).modeKeys
        = objKeys ((segmentsOf (sortedPointsOf db tripId)).map segTag) := by
      show modeKeysOf (segmentsOf (sortedPointsOf db t.id)) = _
      rw [hid]
      rfl
    have part1 : ((tripDetailResp db t).modeKeys.map
        fun m => specModeSum db tripId m).sum = specDistanceSum db tripId := by
      rw [hkeys]
      exact sum_fibers _ (objKeys_nodup _) _
        fun s hs => (mem_objKeys _ _).mpr (List.mem_map_of_mem segTag hs)
    refine ⟨part1, ?_⟩
    have hvm : ∀ m, (tripDetailResp db t).distanceByMode m
        = round (specModeSum db tripId m) := by
      intro m
      show round (byModeAcc (segmentsOf (sortedPointsOf db t.id)) m) = _
      rw [hid, byModeAcc_eq_sum]
      rfl
    have hdm : (tripDetailResp db t).distanceMeters
        = round (specDistanceSum db tripId) := by
      show round (distAcc (segmentsOf (sortedPointsOf db t.id))) = _
      rw [hid, distAcc_eq_sum]
      rfl
    have hmv : ((mapValuesSum (tripDetailResp db t) : ℤ) : ℝ)
        = ((tripDetailResp db t).modeKeys.map
            fun m => ((round (specModeSum db tripId m) : ℤ) : ℝ)).sum := by
      unfold mapValuesSum
      rw [Int.cast_list_sum, List.map_map]
      congr 1
      apply List.map_congr_left
      intro m _
      simp [hvm m]
    rw [hmv, hdm]
    have e2 : ((tripDetailResp db t).modeKeys.map
          fun m => ((round (specModeSum db tripId m) : ℤ) : ℝ)).sum
          - specDistanceSum db tripId
        = ((tripDetailResp db t).modeKeys.map
            fun m => ((round (specModeSum db tripId m) : ℤ) : ℝ)
              - specModeSum db tripId m).sum := by
      rw [← part1]
      exact list_sum_sub _ _ _
    have e1 : ((tripDetailResp db t).modeKeys.map
          fun m => ((round (specModeSum db tripId m) : ℤ) : ℝ)).sum
          - ((round (specDistanceSum db tripId) : ℤ) : ℝ)
        = (((tripDetailResp db t).modeKeys.map
            fun m => ((round (specModeSum db tripId m) : ℤ) : ℝ)
              - specModeSum db tripId m).sum)
          + (specDistanceSum db tripId
              - ((round (specDistanceSum db tripId) : ℤ) : ℝ)) := by
      rw [← e2]
      ring
    rw [e1]
    have habs1 : |(((tripDetailResp db t).modeKeys.map
          fun m => ((round (specModeSum db tripId m) : ℤ) : ℝ)
            - specModeSum db tripId m).sum)|
        ≤ (((tripDetailResp db t).modeKeys.length : ℝ)) * (1 / 2) := by
      refine le_trans (list_abs_sum_le _ _) ?_
      apply list_sum_le_mul
      intro m _
      rw [abs_sub_comm]
      exact abs_sub_round (specModeSum db tripId m)
    have habs2 : |specDistanceSum db tripId
          - ((round (specDistanceSum db tripId) : ℤ) : ℝ)| ≤ 1 / 2 :=
      abs_sub_round (specDistanceSum db tripId)
    refine le_trans (abs_add _ _) ?_
    have := habs1
    linarith

/-- C5 witness for the amended sum law, on the point-less open trip. -/
theorem claim5_mode_sum_law_witness :
    getTripDetail 7 1 dbOpen7 = .ok (tripDetailResp dbOpen7 tripOpen7)
      ∧ (((tripDetailResp dbOpen7 tripOpen7).modeKeys.map
            fun m => specModeSum dbOpen7 1 m).sum = specDistanceSum dbOpen7 1
        ∧ |((mapValuesSum (tripDetailResp dbOpen7 tripOpen7) : ℤ) : ℝ)
              - ((tripDetailResp dbOpen7 tripOpen7).distanceMeters : ℝ)|
            ≤ (((tripDetailResp dbOpen7 tripOpen7).modeKeys.length : ℝ) + 1) / 2) :=
  ⟨rfl, claim5_mode_sum_law 7 1 dbOpen7 _ rfl⟩

end TripCore
